import Mathlib

/-!
Shallow embedding of the gardener node-agent operating-system-config reconciler
(`pkg/nodeagent/controller/operatingsystemconfig/reconciler.go`).

The reconciler applies a computed change set (changed/deleted files and systemd
units) to the node: it writes files, writes unit files and drop-ins, removes
deleted units and files, reloads the systemd daemon and issues unit start/stop
commands, then persists a "last applied" marker file and records the checksum
as an annotation on the node object.

The embedding models the filesystem as an in-memory association list from paths
to entries, the DBus service-manager client and the content decoder as a
fallible environment, and instruments every side-effecting call with an event
appended to a trace (mirroring the log statement the Go code emits at each
call site).
-/

namespace GardenerOSC

/-- Errors are the wrapped message strings the Go code produces with
`fmt.Errorf`. -/
abbrev Err := String

/-- Decidable equality for `Except`, used to evaluate the model on concrete
inputs. -/
instance instDecEqExcept {ε α : Type} [DecidableEq ε] [DecidableEq α] :
    DecidableEq (Except ε α) := fun a b =>
  match a, b with
  | .ok x, .ok y =>
    if h : x = y then .isTrue (by rw [h]) else .isFalse (by intro hc; cases hc; exact h rfl)
  | .ok _, .error _ => .isFalse (by intro hc; cases hc)
  | .error _, .ok _ => .isFalse (by intro hc; cases hc)
  | .error x, .error y =>
    if h : x = y then .isTrue (by rw [h]) else .isFalse (by intro hc; cases hc; exact h rfl)

/-! ### Data model (from `extensionsv1alpha1` types as used by the reconciler) -/

/-- Inline file content with a transfer encoding (`FileContentInline`). -/
structure FileContentInline where
  encoding : String
  data : String
  deriving Repr, DecidableEq

/-- File content; the reconciler only acts on the inline variant
(`file.Content.Inline == nil` files are skipped). -/
structure FileContent where
  inline : Option FileContentInline
  deriving Repr, DecidableEq

/-- A managed file (`extensionsv1alpha1.File`): path, optional permissions,
content. -/
structure File where
  path : String
  permissions : Option Nat
  content : FileContent
  deriving Repr, DecidableEq

/-- Unit command (`extensionsv1alpha1.UnitCommand`): Start or Stop. -/
inductive UnitCommand where
  | start
  | stop
  deriving Repr, DecidableEq

/-- A systemd drop-in (`extensionsv1alpha1.DropIn`). -/
structure DropIn where
  name : String
  content : String
  deriving Repr, DecidableEq

/-- A systemd unit (`extensionsv1alpha1.Unit`). Note there is no permission
field: unit files always get the default permissions. -/
structure SystemdUnit where
  name : String
  command : Option UnitCommand
  enable : Option Bool
  content : Option String
  dropIns : List DropIn
  deriving Repr, DecidableEq

/-- The drop-in sub-diff carried by a changed unit. -/
structure DropInsChanges where
  changed : List DropIn
  deleted : List DropIn
  deriving Repr, DecidableEq

/-- A changed unit (`changedUnit`): the desired unit plus its drop-in
sub-diff. -/
structure ChangedUnit where
  unit : SystemdUnit
  dropIns : DropInsChanges
  deriving Repr, DecidableEq

/-- Changed and deleted files of a change set. -/
structure FilesChanges where
  changed : List File
  deleted : List File
  deriving Repr, DecidableEq

/-- Changed and deleted units of a change set. -/
structure UnitsChanges where
  changed : List ChangedUnit
  deleted : List SystemdUnit
  deriving Repr, DecidableEq

/-- The change set computed by `computeOperatingSystemConfigChanges`
(`operatingSystemConfigChanges`). -/
structure OSCChanges where
  files : FilesChanges
  units : UnitsChanges
  deriving Repr, DecidableEq

/-! ### Constants -/

/-- `etcSystemdSystem = path.Join("/", "etc", "systemd", "system")`. -/
def etcSystemdSystem : String := "/etc/systemd/system"

/-- `defaultFilePermissions os.FileMode = 0600`. -/
def defaultFilePermissions : Nat := 0o600

/-- Modelled from the spec: `nodeagentv1alpha1.BaseDir` is not under src/;
the marker lives at "a fixed well-known filesystem path". -/
def baseDir : String := "/var/lib/gardener-node-agent"

/-- `lastAppliedOperatingSystemConfigFilePath = BaseDir + "/last-applied-osc.yaml"`. -/
def lastAppliedOperatingSystemConfigFilePath : String :=
  baseDir ++ "/last-applied-osc.yaml"

/-- Modelled from the spec: `executor.AnnotationKeyChecksum` is not under src/;
the checksum is recorded as "a string-valued annotation on the owning node
object". -/
def annotationKeyChecksum : String := "checksum/data-script"

/-! ### Filesystem model -/

/-- An entry of the in-memory filesystem: content bytes and permission bits. -/
structure FSEntry where
  data : String
  perm : Nat
  deriving Repr, DecidableEq

/-- The filesystem is an association list from absolute paths to entries. -/
abbrev FileSystem := List (String × FSEntry)

/-- Look up the entry stored at a path. -/
def fsLookup : FileSystem → String → Option FSEntry
  | [], _ => none
  | (q, e) :: rest, p => if q = p then some e else fsLookup rest p

/-- Store an entry at a path, replacing any previous entry. -/
def fsSet : FileSystem → String → FSEntry → FileSystem
  | [], p, e => [(p, e)]
  | (q, e0) :: rest, p, e =>
    if q = p then (q, e) :: rest else (q, e0) :: fsSet rest p e

/-- Delete the entry at a path (`Remove`). -/
def fsDelete (fs : FileSystem) (p : String) : FileSystem :=
  fs.filter fun kv => if kv.1 = p then false else true

/-- Structural character-list prefix test (used instead of the byte-position
based core implementation so that terms reduce). -/
def charsLeadWith : List Char → List Char → Bool
  | [], _ => true
  | _ :: _, [] => false
  | c :: cs, d :: ds => c == d && charsLeadWith cs ds

/-- String prefix test on the underlying character lists. -/
def strLeadsWith (pre s : String) : Bool :=
  charsLeadWith pre.data s.data

/-- Delete a path and everything beneath it (`RemoveAll`). -/
def fsDeleteTree (fs : FileSystem) (p : String) : FileSystem :=
  fs.filter fun kv =>
    if kv.1 = p ∨ strLeadsWith (p ++ "/") kv.1 = true then false else true

/-! ### Events and reconciler state -/

/-- One event per side-effecting call the reconciler makes, mirroring the log
statement at the corresponding call site in the Go code. -/
inductive Event where
  | tempDir (dir : String)
  | mkdirAll (p : String)
  | writeFile (p : String) (data : String) (perm : Nat)
  | rename (src dst : String)
  | readFile (p : String)
  | chmod (p : String) (perm : Nat)
  | remove (p : String)
  | removeAllCall (p : String)
  | enable (unit : String)
  | disable (unit : String)
  | stop (unit : String)
  | restart (unit : String)
  | daemonReload
  | persistMarker (raw : String)
  | recordOSCApplied
  | patchNode (checksum : String)
  deriving Repr, DecidableEq

/-- The state threaded through one reconciliation pass: the filesystem and the
chronological trace of side-effecting calls. -/
structure RState where
  fs : FileSystem
  trace : List Event
  deriving Repr, DecidableEq

/-- Append an event to the trace. -/
def emit (e : Event) (s : RState) : RState :=
  { s with trace := s.trace ++ [e] }

/-- The only filesystem error the in-memory model produces: the target of a
deletion does not exist (`afero.ErrFileNotFound`). -/
inductive FsError where
  | notFound
  deriving Repr, DecidableEq

/-- `FS.WriteFile`: store content with the given permissions. -/
def opWriteFile (p data : String) (perm : Nat) (s : RState) : RState :=
  { emit (.writeFile p data perm) s with fs := fsSet s.fs p ⟨data, perm⟩ }

/-- `FS.Rename`: move the entry at `src` to `dst`; fails when `src` is
absent. -/
def opRename (src dst : String) (s : RState) : Option Err × RState :=
  match fsLookup s.fs src with
  | none => (some ("rename " ++ src ++ " " ++ dst ++ ": no such file or directory"),
             emit (.rename src dst) s)
  | some entry =>
    (none, { emit (.rename src dst) s with fs := fsSet (fsDelete s.fs src) dst entry })

/-- `FS.ReadFile`: returns `none` when the file does not exist (the Go code
tolerates `afero.ErrFileNotFound` and keeps a nil byte slice). -/
def opReadFile (p : String) (s : RState) : Option String × RState :=
  ((fsLookup s.fs p).map (fun e => e.data), emit (.readFile p) s)

/-- `FS.Chmod`: reset permission bits; fails when the file does not exist. -/
def opChmod (p : String) (perm : Nat) (s : RState) : Option Err × RState :=
  match fsLookup s.fs p with
  | none => (some ("chmod " ++ p ++ ": no such file or directory"),
             emit (.chmod p perm) s)
  | some entry =>
    (none, { emit (.chmod p perm) s with fs := fsSet s.fs p { entry with perm := perm } })

/-- `FS.Remove`: delete one path; reports `notFound` when absent. -/
def opRemove (p : String) (s : RState) : Option FsError × RState :=
  match fsLookup s.fs p with
  | none => (some .notFound, emit (.remove p) s)
  | some _ => (none, { emit (.remove p) s with fs := fsDelete s.fs p })

/-- `FS.RemoveAll`: delete a whole tree; removing a non-existent tree is a
no-op, not an error (os.RemoveAll semantics). -/
def opRemoveAll (p : String) (s : RState) : RState :=
  { emit (.removeAllCall p) s with fs := fsDeleteTree s.fs p }

/-! ### Environment: DBus client, content decoder, configuration -/

/-- The fallible external capabilities of one pass: the content decoder
(`extensionsv1alpha1helper.Decode`, not under src/) and the DBus
service-manager client, plus the controller sync period. A `some e` outcome
means the corresponding call fails with error `e`. -/
structure Env where
  decode : String → String → Except Err String
  enableErr : String → Option Err
  disableErr : String → Option Err
  stopErr : String → Option Err
  restartErr : String → Option Err
  daemonReloadErr : Option Err
  syncPeriodSeconds : Nat

/-- `DBus.Enable`. -/
def opEnable (env : Env) (name : String) (s : RState) : Option Err × RState :=
  (env.enableErr name, emit (.enable name) s)

/-- `DBus.Disable`. -/
def opDisable (env : Env) (name : String) (s : RState) : Option Err × RState :=
  (env.disableErr name, emit (.disable name) s)

/-- `DBus.Stop`. -/
def opStop (env : Env) (name : String) (s : RState) : Option Err × RState :=
  (env.stopErr name, emit (.stop name) s)

/-- `DBus.Restart`. -/
def opRestart (env : Env) (name : String) (s : RState) : Option Err × RState :=
  (env.restartErr name, emit (.restart name) s)

/-- `DBus.DaemonReload`. -/
def opDaemonReload (env : Env) (s : RState) : Option Err × RState :=
  (env.daemonReloadErr, emit .daemonReload s)

/-! ### Phase 1: `applyChangedFiles` -/

/-- Split a character list at every slash. -/
def splitOnSlash : List Char → List (List Char)
  | [] => [[]]
  | c :: rest =>
    let r := splitOnSlash rest
    if c = '/' then [] :: r
    else
      match r with
      | [] => [[c]]
      | h :: t => (c :: h) :: t

/-- Join character-list segments with slashes. -/
def joinSlash : List (List Char) → List Char
  | [] => []
  | [x] => x
  | x :: xs => x ++ '/' :: joinSlash xs

/-- Directory part of a path (`filepath.Dir`, restricted to the use here). -/
def dirname (p : String) : String :=
  String.mk (joinSlash (splitOnSlash p.data).dropLast)

/-- Base name of a path (`filepath.Base`, restricted to the use here). -/
def basename (p : String) : String :=
  String.mk (((splitOnSlash p.data).getLast?).getD p.data)

/-- The scratch directory returned by `FS.TempDir("", "gardener-node-agent-*")`. -/
def tmpDirName : String := "/tmp/gardener-node-agent-0"

/-- The permission resolution of `applyChangedFiles`: the file's own
permissions when set, `defaultFilePermissions` otherwise. -/
def resolvePerm (file : File) : Nat :=
  match file.permissions with
  | none => defaultFilePermissions
  | some p => p

/-- Loop body of `applyChangedFiles` for one file: skip files without inline
content, ensure the parent directory, resolve permissions, decode, write to the
scratch directory, atomically rename into place. -/
def applyChangedFile (env : Env) (tmpDir : String) (file : File) (s : RState) :
    Except Err Unit × RState :=
  match file.content.inline with
  | none => (.ok (), s)
  | some inl =>
    match env.decode inl.encoding inl.data with
    | .error e =>
      (.error ("unable to decode data of file " ++ file.path ++ ": " ++ e),
       emit (.mkdirAll (dirname file.path)) s)
    | .ok data =>
      match opRename (tmpDir ++ "/" ++ basename file.path) file.path
          (opWriteFile (tmpDir ++ "/" ++ basename file.path) data (resolvePerm file)
            (emit (.mkdirAll (dirname file.path)) s)) with
      | (some e, s3) =>
        (.error ("unable to rename temporary file " ++ (tmpDir ++ "/" ++ basename file.path) ++
                 " to " ++ file.path ++ ": " ++ e), s3)
      | (none, s3) => (.ok (), s3)

/-- The `for` loop of `applyChangedFiles`, failing fast on the first error. -/
def applyChangedFilesLoop (env : Env) (tmpDir : String) :
    List File → RState → Except Err Unit × RState
  | [], s => (.ok (), s)
  | file :: rest, s =>
    match applyChangedFile env tmpDir file s with
    | (.ok _, s1) => applyChangedFilesLoop env tmpDir rest s1
    | (.error e, s1) => (.error e, s1)

/-- `applyChangedFiles`: create the scratch directory, process every file, and
remove the scratch directory unconditionally on exit (the Go `defer`). -/
def applyChangedFiles (env : Env) (files : List File) (s : RState) :
    Except Err Unit × RState :=
  match applyChangedFilesLoop env tmpDirName files (emit (.tempDir tmpDirName) s) with
  | (res, s2) => (res, opRemoveAll tmpDirName s2)

/-! ### Phase 2: `applyChangedUnits` -/

/-- The unit-content part of the `applyChangedUnits` loop body: when content is
present, read the installed unit file (a missing file reads as nil), write the
new content only if it differs, then unconditionally reset the permission
bits. -/
def applyUnitContent (unitName unitFilePath : String) (content : Option String)
    (s : RState) : Except Err Unit × RState :=
  match content with
  | none => (.ok (), s)
  | some newUnitContent =>
    match opChmod unitFilePath defaultFilePermissions
        (if newUnitContent = ((opReadFile unitFilePath s).1).getD ""
         then (opReadFile unitFilePath s).2
         else opWriteFile unitFilePath newUnitContent defaultFilePermissions
                (opReadFile unitFilePath s).2) with
    | (some e, s3) =>
      (.error ("unable to ensure permissions for unit file " ++ unitFilePath ++
               " for " ++ unitName ++ ": " ++ e), s3)
    | (none, s3) => (.ok (), s3)

/-- One changed drop-in: read the installed drop-in (a missing file reads as
nil), write only if different, then unconditionally reset permissions.  The
error message of the permission reset names the unit file path, as the Go code
does. -/
def applyChangedDropIn (unitName unitFilePath dropInDirectory : String)
    (dropIn : DropIn) (s : RState) : Except Err Unit × RState :=
  match opChmod (dropInDirectory ++ "/" ++ dropIn.name) defaultFilePermissions
      (if dropIn.content = ((opReadFile (dropInDirectory ++ "/" ++ dropIn.name) s).1).getD ""
       then (opReadFile (dropInDirectory ++ "/" ++ dropIn.name) s).2
       else opWriteFile (dropInDirectory ++ "/" ++ dropIn.name) dropIn.content
              defaultFilePermissions (opReadFile (dropInDirectory ++ "/" ++ dropIn.name) s).2) with
  | (some e, s3) =>
    (.error ("unable to ensure permissions for drop-in file " ++ unitFilePath ++
             " for unit " ++ unitName ++ ": " ++ e), s3)
  | (none, s3) => (.ok (), s3)

/-- The loop over `unit.dropIns.changed`. -/
def applyChangedDropInsLoop (unitName unitFilePath dropInDirectory : String) :
    List DropIn → RState → Except Err Unit × RState
  | [], s => (.ok (), s)
  | d :: rest, s =>
    match applyChangedDropIn unitName unitFilePath dropInDirectory d s with
    | (.ok _, s1) => applyChangedDropInsLoop unitName unitFilePath dropInDirectory rest s1
    | (.error e, s1) => (.error e, s1)

/-- The loop over `unit.dropIns.deleted`: remove each drop-in file, tolerating
`afero.ErrFileNotFound`. -/
def removeDeletedDropInsLoop (dropInDirectory : String) :
    List DropIn → RState → Except Err Unit × RState
  | [], s => (.ok (), s)
  | d :: rest, s =>
    match opRemove (dropInDirectory ++ "/" ++ d.name) s with
    | (some .notFound, s1) => removeDeletedDropInsLoop dropInDirectory rest s1
    | (none, s1) => removeDeletedDropInsLoop dropInDirectory rest s1

/-- The drop-in part of the `applyChangedUnits` loop body: when the desired
unit has no drop-ins at all, remove the whole drop-in directory; otherwise
ensure it exists, apply the changed drop-ins and remove the deleted ones. -/
def applyUnitDropIns (unitName unitFilePath : String) (u : ChangedUnit)
    (s : RState) : Except Err Unit × RState :=
  if u.unit.dropIns.isEmpty then
    (.ok (), opRemoveAll (unitFilePath ++ ".d") s)
  else
    match applyChangedDropInsLoop unitName unitFilePath (unitFilePath ++ ".d")
        u.dropIns.changed (emit (.mkdirAll (unitFilePath ++ ".d")) s) with
    | (.error e, s2) => (.error e, s2)
    | (.ok _, s2) =>
      removeDeletedDropInsLoop (unitFilePath ++ ".d") u.dropIns.deleted s2

/-- The enablement part of the `applyChangedUnits` loop body:
`Enable` if `pointer.BoolDeref(unit.Enable, true)`, else `Disable`. -/
def registerUnitEnablement (env : Env) (u : ChangedUnit) (s : RState) :
    Except Err Unit × RState :=
  if u.unit.enable.getD true then
    match opEnable env u.unit.name s with
    | (some e, s1) => (.error ("unable to enable unit " ++ u.unit.name ++ ": " ++ e), s1)
    | (none, s1) => (.ok (), s1)
  else
    match opDisable env u.unit.name s with
    | (some e, s1) => (.error ("unable to disable unit " ++ u.unit.name ++ ": " ++ e), s1)
    | (none, s1) => (.ok (), s1)

/-- The `applyChangedUnits` loop body for one changed unit. -/
def applyChangedUnit (env : Env) (u : ChangedUnit) (s : RState) :
    Except Err Unit × RState :=
  match applyUnitContent u.unit.name (etcSystemdSystem ++ "/" ++ u.unit.name)
      u.unit.content s with
  | (.error e, s1) => (.error e, s1)
  | (.ok _, s1) =>
    match applyUnitDropIns u.unit.name (etcSystemdSystem ++ "/" ++ u.unit.name) u s1 with
    | (.error e, s2) => (.error e, s2)
    | (.ok _, s2) => registerUnitEnablement env u s2

/-- `applyChangedUnits`, failing fast on the first error. -/
def applyChangedUnits (env : Env) :
    List ChangedUnit → RState → Except Err Unit × RState
  | [], s => (.ok (), s)
  | u :: rest, s =>
    match applyChangedUnit env u s with
    | (.ok _, s1) => applyChangedUnits env rest s1
    | (.error e, s1) => (.error e, s1)

/-! ### Phase 3: `removeDeletedUnits` -/

/-- The `removeDeletedUnits` loop body for one deleted unit: disable, stop,
remove the unit file (tolerating not-found), remove the drop-in directory. -/
def removeDeletedUnit (env : Env) (u : SystemdUnit) (s : RState) :
    Except Err Unit × RState :=
  match opDisable env u.name s with
  | (some e, s1) => (.error ("unable to disable deleted unit " ++ u.name ++ ": " ++ e), s1)
  | (none, s1) =>
    match opStop env u.name s1 with
    | (some e, s2) => (.error ("unable to stop deleted unit " ++ u.name ++ ": " ++ e), s2)
    | (none, s2) =>
      match opRemove (etcSystemdSystem ++ "/" ++ u.name) s2 with
      | (some .notFound, s3) =>
        (.ok (), opRemoveAll (etcSystemdSystem ++ "/" ++ u.name ++ ".d") s3)
      | (none, s3) =>
        (.ok (), opRemoveAll (etcSystemdSystem ++ "/" ++ u.name ++ ".d") s3)

/-- `removeDeletedUnits`, failing fast on the first error. -/
def removeDeletedUnits (env : Env) :
    List SystemdUnit → RState → Except Err Unit × RState
  | [], s => (.ok (), s)
  | u :: rest, s =>
    match removeDeletedUnit env u s with
    | (.ok _, s1) => removeDeletedUnits env rest s1
    | (.error e, s1) => (.error e, s1)

/-! ### Phase 5: `executeUnitCommands` -/

/-- The stop-vs-restart decision:
`!pointer.BoolDeref(unit.Enable, true) || (unit.Command != nil && *unit.Command == CommandStop)`. -/
def wantsStop (u : ChangedUnit) : Bool :=
  !(u.unit.enable.getD true) || (u.unit.command == some UnitCommand.stop)

/-- The per-unit task of `executeUnitCommands`. -/
def executeUnitCommand (env : Env) (u : ChangedUnit) (s : RState) :
    Except Err Unit × RState :=
  if wantsStop u then
    match opStop env u.unit.name s with
    | (some e, s1) => (.error ("unable to stop unit " ++ u.unit.name ++ ": " ++ e), s1)
    | (none, s1) => (.ok (), s1)
  else
    match opRestart env u.unit.name s with
    | (some e, s1) => (.error ("unable to restart unit " ++ u.unit.name ++ ": " ++ e), s1)
    | (none, s1) => (.ok (), s1)

/-- Modelled from the spec: the per-unit tasks run via `flow.Parallel` (not
under src/) — "the phase succeeds only if every concurrent command succeeds,
and a single failure fails the whole phase (first error wins, but all
outstanding commands are allowed to finish before returning)".  The fan-out is
modelled as a run of every task that never cancels and reports the first
error. -/
def executeUnitCommandsLoop (env : Env) (firstErr : Option Err) :
    List ChangedUnit → RState → Except Err Unit × RState
  | [], s =>
    (match firstErr with
     | none => (.ok (), s)
     | some e => (.error e, s))
  | u :: rest, s =>
    match executeUnitCommand env u s with
    | (.ok _, s1) => executeUnitCommandsLoop env firstErr rest s1
    | (.error e, s1) =>
      executeUnitCommandsLoop env (firstErr.orElse (fun _ => some e)) rest s1

/-- `executeUnitCommands`. -/
def executeUnitCommands (env : Env) (units : List ChangedUnit) (s : RState) :
    Except Err Unit × RState :=
  executeUnitCommandsLoop env none units s

/-! ### Phase 6: `removeDeletedFiles` -/

/-- `removeDeletedFiles`: remove each deleted file, tolerating
`afero.ErrFileNotFound`. -/
def removeDeletedFiles : List File → RState → Except Err Unit × RState
  | [], s => (.ok (), s)
  | file :: rest, s =>
    match opRemove file.path s with
    | (some .notFound, s1) => removeDeletedFiles rest s1
    | (none, s1) => removeDeletedFiles rest s1

/-! ### The reconciliation driver (`Reconcile`) -/

/-- Phases 1–3 of the apply sequence with the error wrapping `Reconcile`
adds at each call site. -/
def phases123 (env : Env) (changes : OSCChanges) (s : RState) :
    Except Err Unit × RState :=
  match applyChangedFiles env changes.files.changed s with
  | (.error e, s1) => (.error ("failed applying changed files: " ++ e), s1)
  | (.ok _, s1) =>
    match applyChangedUnits env changes.units.changed s1 with
    | (.error e, s2) => (.error ("failed applying changed units: " ++ e), s2)
    | (.ok _, s2) =>
      match removeDeletedUnits env changes.units.deleted s2 with
      | (.error e, s3) => (.error ("failed removing deleted units: " ++ e), s3)
      | (.ok _, s3) => (.ok (), s3)

/-- The six apply phases in the order `Reconcile` runs them: changed files,
changed units, deleted units, daemon reload, unit commands, deleted files. -/
def applyPipeline (env : Env) (changes : OSCChanges) (s : RState) :
    Except Err Unit × RState :=
  match phases123 env changes s with
  | (.error e, s3) => (.error e, s3)
  | (.ok _, s3) =>
    match opDaemonReload env s3 with
    | (some e, s4) => (.error ("failed reloading systemd daemon: " ++ e), s4)
    | (none, s4) =>
      match executeUnitCommands env changes.units.changed s4 with
      | (.error e, s5) => (.error ("failed executing unit commands: " ++ e), s5)
      | (.ok _, s5) =>
        match removeDeletedFiles changes.files.deleted s5 with
        | (.error e, s6) => (.error ("failed removing deleted files: " ++ e), s6)
        | (.ok _, s6) => (.ok (), s6)

/-- The node object's metadata, as far as the reconciler reads it. -/
structure NodeMeta where
  annotations : List (String × String)
  deriving Repr, DecidableEq

/-- Annotation lookup (a missing key reads as the empty string in Go's map
indexing, handled at the use site). -/
def annLookup : List (String × String) → String → Option String
  | [], _ => none
  | (k, v) :: rest, key => if k = key then some v else annLookup rest key

/-- The convergence gate:
`node != nil && node.Annotations[AnnotationKeyChecksum] == oscChecksum`. -/
def checkSkip (node : Option NodeMeta) (oscChecksum : String) : Bool :=
  match node with
  | none => false
  | some n =>
    ((annLookup n.annotations annotationKeyChecksum).getD "") == oscChecksum

/-- The outcome of one pass: terminate, or requeue after the given number of
seconds. -/
inductive ReconcileResult where
  | terminate
  | requeueAfterSeconds (seconds : Nat)
  deriving Repr, DecidableEq

/-- Persist the raw config as the "last applied" marker file
(`FS.WriteFile(lastAppliedOperatingSystemConfigFilePath, oscRaw, 0644)`). -/
def persistMarker (oscRaw : String) (s : RState) : RState :=
  { emit (.persistMarker oscRaw) s with
    fs := fsSet s.fs lastAppliedOperatingSystemConfigFilePath ⟨oscRaw, 0o644⟩ }

/-- `Reconcile`, from the convergence gate on: skip when the node annotation
already records the desired checksum; otherwise run the six apply phases,
persist the marker, and — when the node exists — record an event and patch the
checksum annotation; with no node, requeue after 5 seconds so the annotation
eventually lands. -/
def Reconcile (env : Env) (node : Option NodeMeta) (changes : OSCChanges)
    (oscRaw oscChecksum : String) (s : RState) :
    Except Err ReconcileResult × RState :=
  if checkSkip node oscChecksum then (.ok .terminate, s)
  else
    match applyPipeline env changes s with
    | (.error e, s1) => (.error e, s1)
    | (.ok _, s1) =>
      match node with
      | none => (.ok (.requeueAfterSeconds 5), persistMarker oscRaw s1)
      | some _ =>
        (.ok (.requeueAfterSeconds env.syncPeriodSeconds),
         emit (.patchNode oscChecksum) (emit .recordOSCApplied (persistMarker oscRaw s1)))

/-! ### Event classes -/

/-- Events phase 1 (`applyChangedFiles`) can produce. -/
def isPhase1Event : Event → Bool
  | .tempDir _ => true
  | .mkdirAll _ => true
  | .writeFile _ _ _ => true
  | .rename _ _ => true
  | .removeAllCall _ => true
  | _ => false

/-- Events phase 2 (`applyChangedUnits`) can produce. -/
def isPhase2Event : Event → Bool
  | .readFile _ => true
  | .writeFile _ _ _ => true
  | .chmod _ _ => true
  | .mkdirAll _ => true
  | .removeAllCall _ => true
  | .remove _ => true
  | .enable _ => true
  | .disable _ => true
  | _ => false

/-- Events phase 3 (`removeDeletedUnits`) can produce. -/
def isPhase3Event : Event → Bool
  | .disable _ => true
  | .stop _ => true
  | .remove _ => true
  | .removeAllCall _ => true
  | _ => false

/-- Events phase 5 (`executeUnitCommands`) can produce. -/
def isPhase5Event : Event → Bool
  | .stop _ => true
  | .restart _ => true
  | _ => false

/-- Events phase 6 (`removeDeletedFiles`) can produce. -/
def isPhase6Event : Event → Bool
  | .remove _ => true
  | _ => false

/-- Events the six-phase apply pipeline can produce: everything except the
marker write, the applied-event record, and the node patch. -/
def isPipelineEvent : Event → Bool
  | .persistMarker _ => false
  | .recordOSCApplied => false
  | .patchNode _ => false
  | _ => true

/-- The exact event sequence `removeDeletedUnits` produces for one deleted
unit: disable, stop, unit-file removal, drop-in directory removal — in that
order. -/
def unitDeleteBlock (u : SystemdUnit) : List Event :=
  [.disable u.name, .stop u.name,
   .remove (etcSystemdSystem ++ "/" ++ u.name),
   .removeAllCall (etcSystemdSystem ++ "/" ++ u.name ++ ".d")]

/-- `s'` extends the trace of `s` by events all satisfying `P`. -/
def TraceExtends (P : Event → Bool) (s s' : RState) : Prop :=
  ∃ t, s'.trace = s.trace ++ t ∧ ∀ e ∈ t, P e = true

theorem traceExtends_refl {P : Event → Bool} {s : RState} : TraceExtends P s s :=
  ⟨[], by simp, by simp⟩

theorem traceExtends_trans {P : Event → Bool} {s s' s'' : RState}
    (h1 : TraceExtends P s s') (h2 : TraceExtends P s' s'') :
    TraceExtends P s s'' := by
  obtain ⟨t1, ht1, hp1⟩ := h1
  obtain ⟨t2, ht2, hp2⟩ := h2
  refine ⟨t1 ++ t2, ?_, ?_⟩
  · rw [ht2, ht1, List.append_assoc]
  · intro e he
    rcases List.mem_append.mp he with h | h
    · exact hp1 e h
    · exact hp2 e h

theorem traceExtends_mono {P Q : Event → Bool} {s s' : RState}
    (hPQ : ∀ e, P e = true → Q e = true) (h : TraceExtends P s s') :
    TraceExtends Q s s' := by
  obtain ⟨t, ht, hp⟩ := h
  exact ⟨t, ht, fun e he => hPQ e (hp e he)⟩

theorem traceExtends_of_trace_eq {P : Event → Bool} {s s' : RState} (t : List Event)
    (h1 : s'.trace = s.trace ++ t) (h2 : ∀ e ∈ t, P e = true) :
    TraceExtends P s s' :=
  ⟨t, h1, h2⟩

/-! ### Trace shapes of the primitive operations -/

@[simp] theorem emit_trace (e : Event) (s : RState) :
    (emit e s).trace = s.trace ++ [e] := rfl

@[simp] theorem emit_fs (e : Event) (s : RState) : (emit e s).fs = s.fs := rfl

@[simp] theorem opWriteFile_trace (p d : String) (perm : Nat) (s : RState) :
    (opWriteFile p d perm s).trace = s.trace ++ [.writeFile p d perm] := rfl

@[simp] theorem opWriteFile_fs (p d : String) (perm : Nat) (s : RState) :
    (opWriteFile p d perm s).fs = fsSet s.fs p ⟨d, perm⟩ := rfl

@[simp] theorem opRename_trace (src dst : String) (s : RState) :
    (opRename src dst s).2.trace = s.trace ++ [.rename src dst] := by
  unfold opRename
  cases h : fsLookup s.fs src <;> rfl

@[simp] theorem opReadFile_trace (p : String) (s : RState) :
    (opReadFile p s).2.trace = s.trace ++ [.readFile p] := rfl

@[simp] theorem opReadFile_fs (p : String) (s : RState) :
    (opReadFile p s).2.fs = s.fs := rfl

@[simp] theorem opReadFile_fst (p : String) (s : RState) :
    (opReadFile p s).1 = (fsLookup s.fs p).map (fun e => e.data) := rfl

@[simp] theorem opChmod_trace (p : String) (perm : Nat) (s : RState) :
    (opChmod p perm s).2.trace = s.trace ++ [.chmod p perm] := by
  unfold opChmod
  cases h : fsLookup s.fs p <;> rfl

@[simp] theorem opRemove_trace (p : String) (s : RState) :
    (opRemove p s).2.trace = s.trace ++ [.remove p] := by
  unfold opRemove
  cases h : fsLookup s.fs p <;> rfl

@[simp] theorem opRemoveAll_trace (p : String) (s : RState) :
    (opRemoveAll p s).trace = s.trace ++ [.removeAllCall p] := rfl

@[simp] theorem opRemoveAll_fs (p : String) (s : RState) :
    (opRemoveAll p s).fs = fsDeleteTree s.fs p := rfl

@[simp] theorem opEnable_trace (env : Env) (n : String) (s : RState) :
    (opEnable env n s).2.trace = s.trace ++ [.enable n] := rfl

@[simp] theorem opEnable_fst (env : Env) (n : String) (s : RState) :
    (opEnable env n s).1 = env.enableErr n := rfl

@[simp] theorem opDisable_trace (env : Env) (n : String) (s : RState) :
    (opDisable env n s).2.trace = s.trace ++ [.disable n] := rfl

@[simp] theorem opDisable_fst (env : Env) (n : String) (s : RState) :
    (opDisable env n s).1 = env.disableErr n := rfl

@[simp] theorem opStop_trace (env : Env) (n : String) (s : RState) :
    (opStop env n s).2.trace = s.trace ++ [.stop n] := rfl

@[simp] theorem opStop_fst (env : Env) (n : String) (s : RState) :
    (opStop env n s).1 = env.stopErr n := rfl

@[simp] theorem opRestart_trace (env : Env) (n : String) (s : RState) :
    (opRestart env n s).2.trace = s.trace ++ [.restart n] := rfl

@[simp] theorem opRestart_fst (env : Env) (n : String) (s : RState) :
    (opRestart env n s).1 = env.restartErr n := rfl

@[simp] theorem opDaemonReload_trace (env : Env) (s : RState) :
    (opDaemonReload env s).2.trace = s.trace ++ [.daemonReload] := rfl

@[simp] theorem opDaemonReload_fst (env : Env) (s : RState) :
    (opDaemonReload env s).1 = env.daemonReloadErr := rfl

@[simp] theorem persistMarker_trace (raw : String) (s : RState) :
    (persistMarker raw s).trace = s.trace ++ [.persistMarker raw] := rfl

/-! ### Trace shape of phase 1 -/

/-- The event discipline of one `applyChangedFiles` step: only phase-1 events,
and every file write uses the file's resolved permissions. -/
def phase1StepEvent (f : File) (e : Event) : Bool :=
  isPhase1Event e &&
    (match e with
     | .writeFile _ _ perm => perm == resolvePerm f
     | _ => true)

theorem phase1StepEvent_sub (f : File) (e : Event)
    (he : phase1StepEvent f e = true) : isPhase1Event e = true := by
  simp only [phase1StepEvent, Bool.and_eq_true] at he
  exact he.1

theorem applyChangedFile_extends (env : Env) (tmpDir : String) (f : File) (s : RState) :
    TraceExtends (phase1StepEvent f) s (applyChangedFile env tmpDir f s).2 := by
  unfold applyChangedFile
  split
  · exact traceExtends_refl
  next inl hc =>
    split
    next e hd =>
      exact traceExtends_of_trace_eq [.mkdirAll (dirname f.path)] (by simp)
        (by simp [phase1StepEvent, isPhase1Event])
    next data hd =>
      split
      next e s3 hr =>
        have h3 := congrArg Prod.snd hr
        refine traceExtends_of_trace_eq
          [.mkdirAll (dirname f.path),
           .writeFile (tmpDir ++ "/" ++ basename f.path) data (resolvePerm f),
           .rename (tmpDir ++ "/" ++ basename f.path) f.path] ?_ ?_
        · rw [← h3, opRename_trace]
          simp
        · intro ev hev
          fin_cases hev <;> simp [phase1StepEvent, isPhase1Event]
      next s3 hr =>
        have h3 := congrArg Prod.snd hr
        refine traceExtends_of_trace_eq
          [.mkdirAll (dirname f.path),
           .writeFile (tmpDir ++ "/" ++ basename f.path) data (resolvePerm f),
           .rename (tmpDir ++ "/" ++ basename f.path) f.path] ?_ ?_
        · rw [← h3, opRename_trace]
          simp
        · intro ev hev
          fin_cases hev <;> simp [phase1StepEvent, isPhase1Event]

theorem applyChangedFilesLoop_extends (env : Env) (tmpDir : String) (files : List File) :
    ∀ s : RState, TraceExtends isPhase1Event s (applyChangedFilesLoop env tmpDir files s).2 := by
  induction files with
  | nil => intro s; exact traceExtends_refl
  | cons f rest ih =>
    intro s
    rcases hstep : applyChangedFile env tmpDir f s with ⟨res, s1⟩
    have h1 : TraceExtends isPhase1Event s s1 := by
      have h := traceExtends_mono (phase1StepEvent_sub f)
        (applyChangedFile_extends env tmpDir f s)
      rw [hstep] at h
      exact h
    cases res with
    | ok u =>
      simp only [applyChangedFilesLoop, hstep]
      exact traceExtends_trans h1 (ih s1)
    | error e =>
      simp only [applyChangedFilesLoop, hstep]
      exact h1

theorem applyChangedFiles_extends (env : Env) (files : List File) (s : RState) :
    TraceExtends isPhase1Event s (applyChangedFiles env files s).2 := by
  unfold applyChangedFiles
  rcases h : applyChangedFilesLoop env tmpDirName files (emit (.tempDir tmpDirName) s)
    with ⟨res, s2⟩
  show TraceExtends isPhase1Event s (opRemoveAll tmpDirName s2)
  have h0 : TraceExtends isPhase1Event s (emit (.tempDir tmpDirName) s) :=
    traceExtends_of_trace_eq [.tempDir tmpDirName] (by simp) (by simp [isPhase1Event])
  have h1 : TraceExtends isPhase1Event (emit (.tempDir tmpDirName) s) s2 := by
    have hh := applyChangedFilesLoop_extends env tmpDirName files (emit (.tempDir tmpDirName) s)
    rw [h] at hh
    exact hh
  have h2 : TraceExtends isPhase1Event s2 (opRemoveAll tmpDirName s2) :=
    traceExtends_of_trace_eq [.removeAllCall tmpDirName] (by simp) (by simp [isPhase1Event])
  exact traceExtends_trans (traceExtends_trans h0 h1) h2

/-! ### Trace shape of phase 2 -/

/-- The event discipline of `applyChangedUnits`: only phase-2 events, and every
file write and permission reset uses `defaultFilePermissions`. -/
def phase2StepEvent (e : Event) : Bool :=
  isPhase2Event e &&
    (match e with
     | .writeFile _ _ perm => perm == defaultFilePermissions
     | .chmod _ perm => perm == defaultFilePermissions
     | _ => true)

theorem phase2StepEvent_sub (e : Event)
    (he : phase2StepEvent e = true) : isPhase2Event e = true := by
  simp only [phase2StepEvent, Bool.and_eq_true] at he
  exact he.1

theorem applyUnitContent_extends (n p : String) (c : Option String) (s : RState) :
    TraceExtends phase2StepEvent s (applyUnitContent n p c s).2 := by
  unfold applyUnitContent
  split
  · exact traceExtends_refl
  next newContent =>
    by_cases hcond : newContent = ((opReadFile p s).1).getD ""
    · simp only [if_pos hcond]
      split
      next e s3 hr =>
        have h3 := congrArg Prod.snd hr
        refine traceExtends_of_trace_eq [.readFile p, .chmod p defaultFilePermissions] ?_ ?_
        · rw [← h3, opChmod_trace]
          simp
        · intro ev hev
          fin_cases hev <;> simp [phase2StepEvent, isPhase2Event]
      next s3 hr =>
        have h3 := congrArg Prod.snd hr
        refine traceExtends_of_trace_eq [.readFile p, .chmod p defaultFilePermissions] ?_ ?_
        · rw [← h3, opChmod_trace]
          simp
        · intro ev hev
          fin_cases hev <;> simp [phase2StepEvent, isPhase2Event]
    · simp only [if_neg hcond]
      split
      next e s3 hr =>
        have h3 := congrArg Prod.snd hr
        refine traceExtends_of_trace_eq
          [.readFile p, .writeFile p newContent defaultFilePermissions,
           .chmod p defaultFilePermissions] ?_ ?_
        · rw [← h3, opChmod_trace]
          simp
        · intro ev hev
          fin_cases hev <;> simp [phase2StepEvent, isPhase2Event]
      next s3 hr =>
        have h3 := congrArg Prod.snd hr
        refine traceExtends_of_trace_eq
          [.readFile p, .writeFile p newContent defaultFilePermissions,
           .chmod p defaultFilePermissions] ?_ ?_
        · rw [← h3, opChmod_trace]
          simp
        · intro ev hev
          fin_cases hev <;> simp [phase2StepEvent, isPhase2Event]

theorem applyChangedDropIn_extends (n up dd : String) (d : DropIn) (s : RState) :
    TraceExtends phase2StepEvent s (applyChangedDropIn n up dd d s).2 := by
  unfold applyChangedDropIn
  by_cases hcond : d.content = ((opReadFile (dd ++ "/" ++ d.name) s).1).getD ""
  · simp only [if_pos hcond]
    split
    next e s3 hr =>
      have h3 := congrArg Prod.snd hr
      refine traceExtends_of_trace_eq
        [.readFile (dd ++ "/" ++ d.name), .chmod (dd ++ "/" ++ d.name) defaultFilePermissions]
        ?_ ?_
      · rw [← h3, opChmod_trace]
        simp
      · intro ev hev
        fin_cases hev <;> simp [phase2StepEvent, isPhase2Event]
    next s3 hr =>
      have h3 := congrArg Prod.snd hr
      refine traceExtends_of_trace_eq
        [.readFile (dd ++ "/" ++ d.name), .chmod (dd ++ "/" ++ d.name) defaultFilePermissions]
        ?_ ?_
      · rw [← h3, opChmod_trace]
        simp
      · intro ev hev
        fin_cases hev <;> simp [phase2StepEvent, isPhase2Event]
  · simp only [if_neg hcond]
    split
    next e s3 hr =>
      have h3 := congrArg Prod.snd hr
      refine traceExtends_of_trace_eq
        [.readFile (dd ++ "/" ++ d.name),
         .writeFile (dd ++ "/" ++ d.name) d.content defaultFilePermissions,
         .chmod (dd ++ "/" ++ d.name) defaultFilePermissions] ?_ ?_
      · rw [← h3, opChmod_trace]
        simp
      · intro ev hev
        fin_cases hev <;> simp [phase2StepEvent, isPhase2Event]
    next s3 hr =>
      have h3 := congrArg Prod.snd hr
      refine traceExtends_of_trace_eq
        [.readFile (dd ++ "/" ++ d.name),
         .writeFile (dd ++ "/" ++ d.name) d.content defaultFilePermissions,
         .chmod (dd ++ "/" ++ d.name) defaultFilePermissions] ?_ ?_
      · rw [← h3, opChmod_trace]
        simp
      · intro ev hev
        fin_cases hev <;> simp [phase2StepEvent, isPhase2Event]

theorem applyChangedDropInsLoop_extends (n up dd : String) (ds : List DropIn) :
    ∀ s : RState, TraceExtends phase2StepEvent s (applyChangedDropInsLoop n up dd ds s).2 := by
  induction ds with
  | nil => intro s; exact traceExtends_refl
  | cons d rest ih =>
    intro s
    rcases hstep : applyChangedDropIn n up dd d s with ⟨res, s1⟩
    have h1 : TraceExtends phase2StepEvent s s1 := by
      have h := applyChangedDropIn_extends n up dd d s
      rw [hstep] at h
      exact h
    cases res with
    | ok u =>
      simp only [applyChangedDropInsLoop, hstep]
      exact traceExtends_trans h1 (ih s1)
    | error e =>
      simp only [applyChangedDropInsLoop, hstep]
      exact h1

theorem removeDeletedDropInsLoop_extends (dd : String) (ds : List DropIn) :
    ∀ s : RState, TraceExtends phase2StepEvent s (removeDeletedDropInsLoop dd ds s).2 := by
  induction ds with
  | nil => intro s; exact traceExtends_refl
  | cons d rest ih =>
    intro s
    rcases hstep : opRemove (dd ++ "/" ++ d.name) s with ⟨rerr, s1⟩
    have h1 : TraceExtends phase2StepEvent s s1 := by
      refine traceExtends_of_trace_eq [.remove (dd ++ "/" ++ d.name)] ?_ ?_
      · have h4 := opRemove_trace (dd ++ "/" ++ d.name) s
        rw [hstep] at h4
        exact h4
      · intro ev hev
        fin_cases hev <;> simp [phase2StepEvent, isPhase2Event]
    cases rerr with
    | none =>
      simp only [removeDeletedDropInsLoop, hstep]
      exact traceExtends_trans h1 (ih s1)
    | some fe =>
      cases fe
      simp only [removeDeletedDropInsLoop, hstep]
      exact traceExtends_trans h1 (ih s1)

theorem applyUnitDropIns_extends (n up : String) (u : ChangedUnit) (s : RState) :
    TraceExtends phase2StepEvent s (applyUnitDropIns n up u s).2 := by
  unfold applyUnitDropIns
  split
  · exact traceExtends_of_trace_eq [.removeAllCall (up ++ ".d")] (by simp)
      (by intro ev hev; fin_cases hev <;> simp [phase2StepEvent, isPhase2Event])
  · rcases hloop : applyChangedDropInsLoop n up (up ++ ".d") u.dropIns.changed
      (emit (.mkdirAll (up ++ ".d")) s) with ⟨res, s2⟩
    have h0 : TraceExtends phase2StepEvent s (emit (.mkdirAll (up ++ ".d")) s) :=
      traceExtends_of_trace_eq [.mkdirAll (up ++ ".d")] (by simp)
        (by intro ev hev; fin_cases hev <;> simp [phase2StepEvent, isPhase2Event])
    have h1 : TraceExtends phase2StepEvent (emit (.mkdirAll (up ++ ".d")) s) s2 := by
      have h := applyChangedDropInsLoop_extends n up (up ++ ".d") u.dropIns.changed
        (emit (.mkdirAll (up ++ ".d")) s)
      rw [hloop] at h
      exact h
    cases res with
    | ok v =>
      simp only [hloop]
      exact traceExtends_trans (traceExtends_trans h0 h1)
        (removeDeletedDropInsLoop_extends (up ++ ".d") u.dropIns.deleted s2)
    | error e =>
      simp only [hloop]
      exact traceExtends_trans h0 h1

theorem registerUnitEnablement_extends (env : Env) (u : ChangedUnit) (s : RState) :
    TraceExtends phase2StepEvent s (registerUnitEnablement env u s).2 := by
  unfold registerUnitEnablement
  split
  · split
    next e s1 hr =>
      have h3 := congrArg Prod.snd hr
      refine traceExtends_of_trace_eq [.enable u.unit.name] ?_ ?_
      · rw [← h3, opEnable_trace]
      · intro ev hev
        fin_cases hev <;> simp [phase2StepEvent, isPhase2Event]
    next s1 hr =>
      have h3 := congrArg Prod.snd hr
      refine traceExtends_of_trace_eq [.enable u.unit.name] ?_ ?_
      · rw [← h3, opEnable_trace]
      · intro ev hev
        fin_cases hev <;> simp [phase2StepEvent, isPhase2Event]
  · split
    next e s1 hr =>
      have h3 := congrArg Prod.snd hr
      refine traceExtends_of_trace_eq [.disable u.unit.name] ?_ ?_
      · rw [← h3, opDisable_trace]
      · intro ev hev
        fin_cases hev <;> simp [phase2StepEvent, isPhase2Event]
    next s1 hr =>
      have h3 := congrArg Prod.snd hr
      refine traceExtends_of_trace_eq [.disable u.unit.name] ?_ ?_
      · rw [← h3, opDisable_trace]
      · intro ev hev
        fin_cases hev <;> simp [phase2StepEvent, isPhase2Event]

theorem applyChangedUnit_extends (env : Env) (u : ChangedUnit) (s : RState) :
    TraceExtends phase2StepEvent s (applyChangedUnit env u s).2 := by
  unfold applyChangedUnit
  rcases hcontent : applyUnitContent u.unit.name (etcSystemdSystem ++ "/" ++ u.unit.name)
    u.unit.content s with ⟨res1, s1⟩
  have h1 : TraceExtends phase2StepEvent s s1 := by
    have h := applyUnitContent_extends u.unit.name (etcSystemdSystem ++ "/" ++ u.unit.name)
      u.unit.content s
    rw [hcontent] at h
    exact h
  cases res1 with
  | error e => exact h1
  | ok v =>
    show TraceExtends phase2StepEvent s
      (match applyUnitDropIns u.unit.name (etcSystemdSystem ++ "/" ++ u.unit.name) u s1 with
       | (.error e, s2) => ((.error e : Except Err Unit), s2)
       | (.ok _, s2) => registerUnitEnablement env u s2).2
    rcases hdrop : applyUnitDropIns u.unit.name (etcSystemdSystem ++ "/" ++ u.unit.name) u s1
      with ⟨res2, s2⟩
    have h2 : TraceExtends phase2StepEvent s1 s2 := by
      have h := applyUnitDropIns_extends u.unit.name (etcSystemdSystem ++ "/" ++ u.unit.name) u s1
      rw [hdrop] at h
      exact h
    cases res2 with
    | error e => exact traceExtends_trans h1 h2
    | ok w =>
      exact traceExtends_trans (traceExtends_trans h1 h2)
        (registerUnitEnablement_extends env u s2)

theorem applyChangedUnits_extends (env : Env) (units : List ChangedUnit) :
    ∀ s : RState, TraceExtends phase2StepEvent s (applyChangedUnits env units s).2 := by
  induction units with
  | nil => intro s; exact traceExtends_refl
  | cons u rest ih =>
    intro s
    rcases hstep : applyChangedUnit env u s with ⟨res, s1⟩
    have h1 : TraceExtends phase2StepEvent s s1 := by
      have h := applyChangedUnit_extends env u s
      rw [hstep] at h
      exact h
    cases res with
    | ok v =>
      simp only [applyChangedUnits, hstep]
      exact traceExtends_trans h1 (ih s1)
    | error e =>
      simp only [applyChangedUnits, hstep]
      exact h1

/-! ### Trace shape of phase 3 -/

theorem removeDeletedUnit_extends (env : Env) (u : SystemdUnit) (s : RState) :
    TraceExtends isPhase3Event s (removeDeletedUnit env u s).2 := by
  unfold removeDeletedUnit
  simp only [opDisable]
  rcases hd : env.disableErr u.name with _ | e
  · simp only []
    simp only [opStop]
    rcases hs : env.stopErr u.name with _ | e
    · simp only []
      rcases hr : opRemove (etcSystemdSystem ++ "/" ++ u.name)
        (emit (.stop u.name) (emit (.disable u.name) s)) with ⟨rerr, s3⟩
      have h4 := opRemove_trace (etcSystemdSystem ++ "/" ++ u.name)
        (emit (.stop u.name) (emit (.disable u.name) s))
      rw [hr] at h4
      have hgoal : TraceExtends isPhase3Event s
          (opRemoveAll (etcSystemdSystem ++ "/" ++ u.name ++ ".d") s3) := by
        refine traceExtends_of_trace_eq (unitDeleteBlock u) ?_ ?_
        · simp only [opRemoveAll_trace, unitDeleteBlock]
          simp at h4
          simp [h4]
        · intro ev hev
          simp only [unitDeleteBlock] at hev
          fin_cases hev <;> simp [isPhase3Event]
      cases rerr with
      | none => exact hgoal
      | some fe => cases fe; exact hgoal
    · simp only []
      refine traceExtends_of_trace_eq [.disable u.name, .stop u.name] ?_ ?_
      · simp
      · intro ev hev
        fin_cases hev <;> simp [isPhase3Event]
  · simp only []
    refine traceExtends_of_trace_eq [.disable u.name] ?_ ?_
    · simp
    · intro ev hev
      fin_cases hev <;> simp [isPhase3Event]

theorem removeDeletedUnits_extends (env : Env) (us : List SystemdUnit) :
    ∀ s : RState, TraceExtends isPhase3Event s (removeDeletedUnits env us s).2 := by
  induction us with
  | nil => intro s; exact traceExtends_refl
  | cons u rest ih =>
    intro s
    rcases hstep : removeDeletedUnit env u s with ⟨res, s1⟩
    have h1 : TraceExtends isPhase3Event s s1 := by
      have h := removeDeletedUnit_extends env u s
      rw [hstep] at h
      exact h
    cases res with
    | ok v =>
      simp only [removeDeletedUnits, hstep]
      exact traceExtends_trans h1 (ih s1)
    | error e =>
      simp only [removeDeletedUnits, hstep]
      exact h1

theorem removeDeletedUnit_ok_trace (env : Env) (u : SystemdUnit) (s : RState)
    (h : (removeDeletedUnit env u s).1 = .ok ()) :
    (removeDeletedUnit env u s).2.trace = s.trace ++ unitDeleteBlock u := by
  unfold removeDeletedUnit at h ⊢
  simp only [opDisable] at h ⊢
  rcases hd : env.disableErr u.name with _ | e
  · simp only [hd] at h ⊢
    simp only [opStop] at h ⊢
    rcases hs : env.stopErr u.name with _ | e
    · simp only [hs] at h ⊢
      rcases hr : opRemove (etcSystemdSystem ++ "/" ++ u.name)
        (emit (.stop u.name) (emit (.disable u.name) s)) with ⟨rerr, s3⟩
      have h4 := opRemove_trace (etcSystemdSystem ++ "/" ++ u.name)
        (emit (.stop u.name) (emit (.disable u.name) s))
      rw [hr] at h4
      simp at h4
      have hgoal : (opRemoveAll (etcSystemdSystem ++ "/" ++ u.name ++ ".d") s3).trace =
          s.trace ++ unitDeleteBlock u := by
        simp only [opRemoveAll_trace, unitDeleteBlock]
        simp [h4]
      cases rerr with
      | none => exact hgoal
      | some fe => cases fe; exact hgoal
    · simp only [hs] at h
      simp at h
  · simp only [hd] at h
    simp at h

theorem removeDeletedUnits_ok_trace (env : Env) (us : List SystemdUnit) :
    ∀ s : RState, (removeDeletedUnits env us s).1 = .ok () →
      (removeDeletedUnits env us s).2.trace = s.trace ++ (us.map unitDeleteBlock).flatten := by
  induction us with
  | nil =>
    intro s _
    simp [removeDeletedUnits]
  | cons u rest ih =>
    intro s h
    rcases hstep : removeDeletedUnit env u s with ⟨res, s1⟩
    simp only [removeDeletedUnits, hstep] at h ⊢
    cases res with
    | error e => simp at h
    | ok v =>
      have hu : (removeDeletedUnit env u s).1 = .ok () := by rw [hstep]
      have ht := removeDeletedUnit_ok_trace env u s hu
      rw [hstep] at ht
      rw [ih s1 h, ht]
      simp

/-! ### Trace shape and result of phase 5 -/

/-- The single command event phase 5 issues for a changed unit: `stop` when
the unit is disabled or explicitly commanded to stop, `restart` otherwise. -/
def commandEvent (u : ChangedUnit) : Event :=
  if wantsStop u then .stop u.unit.name else .restart u.unit.name

/-- The outcome of the single command phase 5 issues for a changed unit, as
determined by the environment (with the Go error wrapping). -/
def unitCommandOutcome (env : Env) (u : ChangedUnit) : Option Err :=
  if wantsStop u then
    (env.stopErr u.unit.name).map (fun e => "unable to stop unit " ++ u.unit.name ++ ": " ++ e)
  else
    (env.restartErr u.unit.name).map
      (fun e => "unable to restart unit " ++ u.unit.name ++ ": " ++ e)

theorem executeUnitCommand_trace (env : Env) (u : ChangedUnit) (s : RState) :
    (executeUnitCommand env u s).2.trace = s.trace ++ [commandEvent u] := by
  unfold executeUnitCommand commandEvent
  by_cases hw : wantsStop u
  · simp only [if_pos hw, opStop]
    rcases hs : env.stopErr u.unit.name with _ | e
    · simp
    · simp
  · simp only [if_neg hw, opRestart]
    rcases hs : env.restartErr u.unit.name with _ | e
    · simp
    · simp

theorem executeUnitCommand_fst (env : Env) (u : ChangedUnit) (s : RState) :
    (executeUnitCommand env u s).1 =
      (match unitCommandOutcome env u with
       | none => .ok ()
       | some e => .error e) := by
  unfold executeUnitCommand unitCommandOutcome
  by_cases hw : wantsStop u
  · simp only [if_pos hw, opStop]
    rcases hs : env.stopErr u.unit.name with _ | e
    · simp
    · simp
  · simp only [if_neg hw, opRestart]
    rcases hs : env.restartErr u.unit.name with _ | e
    · simp
    · simp

theorem executeUnitCommandsLoop_trace (env : Env) (units : List ChangedUnit) :
    ∀ (firstErr : Option Err) (s : RState),
      (executeUnitCommandsLoop env firstErr units s).2.trace =
        s.trace ++ units.map commandEvent := by
  induction units with
  | nil =>
    intro fe s
    cases fe <;> simp [executeUnitCommandsLoop]
  | cons u rest ih =>
    intro fe s
    rcases hstep : executeUnitCommand env u s with ⟨res, s1⟩
    have ht := executeUnitCommand_trace env u s
    rw [hstep] at ht
    cases res with
    | ok v =>
      simp only [executeUnitCommandsLoop, hstep]
      rw [ih fe s1, ht]
      simp
    | error e =>
      simp only [executeUnitCommandsLoop, hstep]
      rw [ih _ s1, ht]
      simp

theorem executeUnitCommandsLoop_fst (env : Env) (units : List ChangedUnit) :
    ∀ (firstErr : Option Err) (s : RState),
      (executeUnitCommandsLoop env firstErr units s).1 =
        (match (firstErr.toList ++ units.filterMap (unitCommandOutcome env)).head? with
         | none => .ok ()
         | some e => .error e) := by
  induction units with
  | nil =>
    intro fe s
    cases fe <;> simp [executeUnitCommandsLoop]
  | cons u rest ih =>
    intro fe s
    rcases hstep : executeUnitCommand env u s with ⟨res, s1⟩
    have hf := executeUnitCommand_fst env u s
    rw [hstep] at hf
    cases ho : unitCommandOutcome env u with
    | none =>
      rw [ho] at hf
      simp only [] at hf
      cases res with
      | error e => exact absurd hf.symm (by simp)
      | ok v =>
        simp only [executeUnitCommandsLoop, hstep]
        rw [ih fe s1]
        simp [List.filterMap_cons, ho]
    | some e0 =>
      rw [ho] at hf
      simp only [] at hf
      cases res with
      | ok v => exact absurd hf.symm (by simp)
      | error e =>
        have he : e = e0 := by
          have := hf
          simp at this
          exact this
        subst he
        simp only [executeUnitCommandsLoop, hstep]
        rw [ih _ s1]
        cases fe <;> simp [List.filterMap_cons, ho, Option.orElse]

theorem executeUnitCommands_trace (env : Env) (units : List ChangedUnit) (s : RState) :
    (executeUnitCommands env units s).2.trace = s.trace ++ units.map commandEvent :=
  executeUnitCommandsLoop_trace env units none s

theorem executeUnitCommands_fst (env : Env) (units : List ChangedUnit) (s : RState) :
    (executeUnitCommands env units s).1 =
      (match (units.filterMap (unitCommandOutcome env)).head? with
       | none => .ok ()
       | some e => .error e) := by
  have h := executeUnitCommandsLoop_fst env units none s
  simpa [executeUnitCommands] using h

theorem commandEvent_isPhase5 (u : ChangedUnit) : isPhase5Event (commandEvent u) = true := by
  unfold commandEvent
  by_cases hw : wantsStop u
  · simp [hw, isPhase5Event]
  · simp [hw, isPhase5Event]

theorem executeUnitCommands_extends (env : Env) (units : List ChangedUnit) (s : RState) :
    TraceExtends isPhase5Event s (executeUnitCommands env units s).2 := by
  refine traceExtends_of_trace_eq (units.map commandEvent)
    (executeUnitCommands_trace env units s) ?_
  intro ev hev
  rw [List.mem_map] at hev
  obtain ⟨u, _, rfl⟩ := hev
  exact commandEvent_isPhase5 u

/-! ### Trace shape and result of phase 6 -/

theorem removeDeletedFiles_extends (files : List File) :
    ∀ s : RState, TraceExtends isPhase6Event s (removeDeletedFiles files s).2 := by
  induction files with
  | nil => intro s; exact traceExtends_refl
  | cons f rest ih =>
    intro s
    rcases hstep : opRemove f.path s with ⟨rerr, s1⟩
    have h1 : TraceExtends isPhase6Event s s1 := by
      refine traceExtends_of_trace_eq [.remove f.path] ?_ ?_
      · have h4 := opRemove_trace f.path s
        rw [hstep] at h4
        exact h4
      · intro ev hev
        fin_cases hev <;> simp [isPhase6Event]
    cases rerr with
    | none =>
      simp only [removeDeletedFiles, hstep]
      exact traceExtends_trans h1 (ih s1)
    | some fe =>
      cases fe
      simp only [removeDeletedFiles, hstep]
      exact traceExtends_trans h1 (ih s1)

theorem removeDeletedFiles_ok (files : List File) :
    ∀ s : RState, (removeDeletedFiles files s).1 = .ok () := by
  induction files with
  | nil => intro s; rfl
  | cons f rest ih =>
    intro s
    rcases hstep : opRemove f.path s with ⟨rerr, s1⟩
    cases rerr with
    | none =>
      simp only [removeDeletedFiles, hstep]
      exact ih s1
    | some fe =>
      cases fe
      simp only [removeDeletedFiles, hstep]
      exact ih s1

/-! ### Class inclusions and the pipeline trace -/

/-- Events phases 1–3 can produce. -/
def isPhases123Event (e : Event) : Bool :=
  isPhase1Event e || isPhase2Event e || isPhase3Event e

theorem isPhase1Event_in123 (e : Event) (h : isPhase1Event e = true) :
    isPhases123Event e = true := by
  simp [isPhases123Event, h]

theorem isPhase2Event_in123 (e : Event) (h : isPhase2Event e = true) :
    isPhases123Event e = true := by
  simp [isPhases123Event, h]

theorem isPhase3Event_in123 (e : Event) (h : isPhase3Event e = true) :
    isPhases123Event e = true := by
  simp [isPhases123Event, h]

theorem isPhases123Event_pipeline (e : Event) (h : isPhases123Event e = true) :
    isPipelineEvent e = true := by
  cases e <;> simp_all [isPhases123Event, isPhase1Event, isPhase2Event, isPhase3Event,
    isPipelineEvent]

theorem isPhase5Event_pipeline (e : Event) (h : isPhase5Event e = true) :
    isPipelineEvent e = true := by
  cases e <;> simp_all [isPhase5Event, isPipelineEvent]

theorem isPhase6Event_pipeline (e : Event) (h : isPhase6Event e = true) :
    isPipelineEvent e = true := by
  cases e <;> simp_all [isPhase6Event, isPipelineEvent]

theorem phases123_extends (env : Env) (changes : OSCChanges) (s : RState) :
    TraceExtends isPhases123Event s (phases123 env changes s).2 := by
  unfold phases123
  rcases h1 : applyChangedFiles env changes.files.changed s with ⟨r1, s1⟩
  have e1 : TraceExtends isPhases123Event s s1 := by
    have h := traceExtends_mono isPhase1Event_in123
      (applyChangedFiles_extends env changes.files.changed s)
    rw [h1] at h
    exact h
  cases r1 with
  | error e => exact e1
  | ok v =>
    show TraceExtends isPhases123Event s
      (match applyChangedUnits env changes.units.changed s1 with
       | (.error e, s2) => ((.error ("failed applying changed units: " ++ e) : Except Err Unit), s2)
       | (.ok _, s2) =>
         match removeDeletedUnits env changes.units.deleted s2 with
         | (.error e, s3) =>
           ((.error ("failed removing deleted units: " ++ e) : Except Err Unit), s3)
         | (.ok _, s3) => ((.ok () : Except Err Unit), s3)).2
    rcases h2 : applyChangedUnits env changes.units.changed s1 with ⟨r2, s2⟩
    have e2 : TraceExtends isPhases123Event s1 s2 := by
      have h := traceExtends_mono
        (fun e he => isPhase2Event_in123 e (phase2StepEvent_sub e he))
        (applyChangedUnits_extends env changes.units.changed s1)
      rw [h2] at h
      exact h
    cases r2 with
    | error e => exact traceExtends_trans e1 e2
    | ok w =>
      show TraceExtends isPhases123Event s
        (match removeDeletedUnits env changes.units.deleted s2 with
         | (.error e, s3) =>
           ((.error ("failed removing deleted units: " ++ e) : Except Err Unit), s3)
         | (.ok _, s3) => ((.ok () : Except Err Unit), s3)).2
      rcases h3 : removeDeletedUnits env changes.units.deleted s2 with ⟨r3, s3⟩
      have e3 : TraceExtends isPhases123Event s2 s3 := by
        have h := traceExtends_mono isPhase3Event_in123
          (removeDeletedUnits_extends env changes.units.deleted s2)
        rw [h3] at h
        exact h
      cases r3 with
      | error e => exact traceExtends_trans (traceExtends_trans e1 e2) e3
      | ok x => exact traceExtends_trans (traceExtends_trans e1 e2) e3

theorem applyPipeline_extends (env : Env) (changes : OSCChanges) (s : RState) :
    TraceExtends isPipelineEvent s (applyPipeline env changes s).2 := by
  unfold applyPipeline
  rcases h1 : phases123 env changes s with ⟨r1, s3⟩
  have e1 : TraceExtends isPipelineEvent s s3 := by
    have h := traceExtends_mono isPhases123Event_pipeline (phases123_extends env changes s)
    rw [h1] at h
    exact h
  cases r1 with
  | error e => exact e1
  | ok v =>
    show TraceExtends isPipelineEvent s
      (match opDaemonReload env s3 with
       | (some e, s4) => ((.error ("failed reloading systemd daemon: " ++ e) : Except Err Unit), s4)
       | (none, s4) =>
         match executeUnitCommands env changes.units.changed s4 with
         | (.error e, s5) =>
           ((.error ("failed executing unit commands: " ++ e) : Except Err Unit), s5)
         | (.ok _, s5) =>
           match removeDeletedFiles changes.files.deleted s5 with
           | (.error e, s6) =>
             ((.error ("failed removing deleted files: " ++ e) : Except Err Unit), s6)
           | (.ok _, s6) => ((.ok () : Except Err Unit), s6)).2
    simp only [opDaemonReload]
    have e4 : TraceExtends isPipelineEvent s3 (emit .daemonReload s3) :=
      traceExtends_of_trace_eq [.daemonReload] (by simp)
        (by intro ev hev; fin_cases hev <;> simp [isPipelineEvent])
    rcases hre : env.daemonReloadErr with _ | e
    · show TraceExtends isPipelineEvent s
        (match executeUnitCommands env changes.units.changed (emit .daemonReload s3) with
         | (.error e, s5) =>
           ((.error ("failed executing unit commands: " ++ e) : Except Err Unit), s5)
         | (.ok _, s5) =>
           match removeDeletedFiles changes.files.deleted s5 with
           | (.error e, s6) =>
             ((.error ("failed removing deleted files: " ++ e) : Except Err Unit), s6)
           | (.ok _, s6) => ((.ok () : Except Err Unit), s6)).2
      rcases h5 : executeUnitCommands env changes.units.changed (emit .daemonReload s3)
        with ⟨r5, s5⟩
      have e5 : TraceExtends isPipelineEvent (emit .daemonReload s3) s5 := by
        have h := traceExtends_mono isPhase5Event_pipeline
          (executeUnitCommands_extends env changes.units.changed (emit .daemonReload s3))
        rw [h5] at h
        exact h
      cases r5 with
      | error e => exact traceExtends_trans (traceExtends_trans e1 e4) e5
      | ok w =>
        show TraceExtends isPipelineEvent s
          (match removeDeletedFiles changes.files.deleted s5 with
           | (.error e, s6) =>
             ((.error ("failed removing deleted files: " ++ e) : Except Err Unit), s6)
           | (.ok _, s6) => ((.ok () : Except Err Unit), s6)).2
        rcases h6 : removeDeletedFiles changes.files.deleted s5 with ⟨r6, s6⟩
        have e6 : TraceExtends isPipelineEvent s5 s6 := by
          have h := traceExtends_mono isPhase6Event_pipeline
            (removeDeletedFiles_extends changes.files.deleted s5)
          rw [h6] at h
          exact h
        cases r6 with
        | error e =>
          exact traceExtends_trans (traceExtends_trans (traceExtends_trans e1 e4) e5) e6
        | ok x =>
          exact traceExtends_trans (traceExtends_trans (traceExtends_trans e1 e4) e5) e6
    · exact traceExtends_trans e1 e4

/-! ### Success decompositions -/

theorem phases123_ok_shape (env : Env) (changes : OSCChanges) (s : RState)
    (h : (phases123 env changes s).1 = .ok ()) :
    ∃ t1 t2, (phases123 env changes s).2.trace =
        s.trace ++ t1 ++ t2 ++ (changes.units.deleted.map unitDeleteBlock).flatten ∧
      (∀ e ∈ t1, isPhase1Event e = true) ∧ (∀ e ∈ t2, isPhase2Event e = true) := by
  rcases h1 : applyChangedFiles env changes.files.changed s with ⟨r1, s1⟩
  cases r1 with
  | error e =>
    exfalso
    simp only [phases123, h1] at h
    simp at h
  | ok v =>
    rcases h2 : applyChangedUnits env changes.units.changed s1 with ⟨r2, s2⟩
    cases r2 with
    | error e =>
      exfalso
      simp only [phases123, h1, h2] at h
      simp at h
    | ok w =>
      rcases h3 : removeDeletedUnits env changes.units.deleted s2 with ⟨r3, s3⟩
      cases r3 with
      | error e =>
        exfalso
        simp only [phases123, h1, h2, h3] at h
        simp at h
      | ok x =>
        have hfin : (phases123 env changes s).2 = s3 := by
          simp only [phases123, h1, h2, h3]
        have e1 := applyChangedFiles_extends env changes.files.changed s
        rw [h1] at e1
        have e2 := applyChangedUnits_extends env changes.units.changed s1
        rw [h2] at e2
        have hok3 : (removeDeletedUnits env changes.units.deleted s2).1 = .ok () := by
          rw [h3]
        have e3 := removeDeletedUnits_ok_trace env changes.units.deleted s2 hok3
        rw [h3] at e3
        obtain ⟨t1, ha1, hb1⟩ := e1
        obtain ⟨t2, ha2, hb2⟩ := e2
        refine ⟨t1, t2, ?_, hb1, fun e he => phase2StepEvent_sub e (hb2 e he)⟩
        rw [hfin, e3, ha2, ha1]

theorem applyPipeline_ok_shape (env : Env) (changes : OSCChanges) (s : RState)
    (h : (applyPipeline env changes s).1 = .ok ()) :
    ∃ t1 t2 t6, (applyPipeline env changes s).2.trace =
        s.trace ++ t1 ++ t2 ++ (changes.units.deleted.map unitDeleteBlock).flatten ++
          [Event.daemonReload] ++ changes.units.changed.map commandEvent ++ t6 ∧
      (∀ e ∈ t1, isPhase1Event e = true) ∧ (∀ e ∈ t2, isPhase2Event e = true) ∧
      (∀ e ∈ t6, isPhase6Event e = true) := by
  rcases hp : phases123 env changes s with ⟨r1, s3⟩
  cases r1 with
  | error e =>
    exfalso
    simp only [applyPipeline, hp] at h
    simp at h
  | ok v =>
    rcases hre : env.daemonReloadErr with _ | e
    · rcases h5 : executeUnitCommands env changes.units.changed (emit .daemonReload s3)
        with ⟨r5, s5⟩
      cases r5 with
      | error e =>
        exfalso
        simp only [applyPipeline, hp, opDaemonReload, hre, h5] at h
        simp at h
      | ok w =>
        rcases h6 : removeDeletedFiles changes.files.deleted s5 with ⟨r6, s6⟩
        cases r6 with
        | error e =>
          exfalso
          simp only [applyPipeline, hp, opDaemonReload, hre, h5, h6] at h
          simp at h
        | ok x =>
          have hfin : (applyPipeline env changes s).2 = s6 := by
            simp only [applyPipeline, hp, opDaemonReload, hre, h5, h6]
          have hok123 : (phases123 env changes s).1 = .ok () := by rw [hp]
          obtain ⟨t1, t2, hshape, hp1, hp2⟩ := phases123_ok_shape env changes s hok123
          rw [hp] at hshape
          have ht5 := executeUnitCommands_trace env changes.units.changed
            (emit .daemonReload s3)
          rw [h5] at ht5
          have e6 := removeDeletedFiles_extends changes.files.deleted s5
          rw [h6] at e6
          obtain ⟨t6, ha6, hb6⟩ := e6
          have hshape2 : s3.trace =
              s.trace ++ t1 ++ t2 ++ (changes.units.deleted.map unitDeleteBlock).flatten :=
            hshape
          have ht5b : s5.trace =
              (emit Event.daemonReload s3).trace ++ changes.units.changed.map commandEvent :=
            ht5
          have ha6b : s6.trace = s5.trace ++ t6 := ha6
          refine ⟨t1, t2, t6, ?_, hp1, hp2, hb6⟩
          rw [hfin, ha6b, ht5b, emit_trace, hshape2]
    · exfalso
      simp only [applyPipeline, hp, opDaemonReload, hre] at h
      simp at h

theorem count_reload_eq_of_extends {P : Event → Bool} {s s' : RState}
    (h : TraceExtends P s s') (hP : P Event.daemonReload = false) :
    s'.trace.count Event.daemonReload = s.trace.count Event.daemonReload := by
  obtain ⟨t, ht, hp⟩ := h
  rw [ht, List.count_append]
  have hz : t.count Event.daemonReload = 0 := by
    rw [List.count_eq_zero]
    intro hmem
    have hP2 := hp _ hmem
    rw [hP] at hP2
    exact Bool.noConfusion hP2
  rw [hz, Nat.add_zero]

theorem applyPipeline_reload_count (env : Env) (changes : OSCChanges) (s : RState)
    (h123 : (phases123 env changes s).1 = .ok ()) :
    ((applyPipeline env changes s).2.trace).count Event.daemonReload =
      s.trace.count Event.daemonReload + 1 := by
  rcases hp : phases123 env changes s with ⟨r1, s3⟩
  have c3 : s3.trace.count Event.daemonReload = s.trace.count Event.daemonReload := by
    have e := phases123_extends env changes s
    rw [hp] at e
    exact count_reload_eq_of_extends e rfl
  cases r1 with
  | error e =>
    exfalso
    rw [hp] at h123
    simp at h123
  | ok v =>
    have c4 : (emit Event.daemonReload s3).trace.count Event.daemonReload =
        s.trace.count Event.daemonReload + 1 := by
      simp [List.count_append, c3]
    rcases hre : env.daemonReloadErr with _ | e
    · rcases h5 : executeUnitCommands env changes.units.changed (emit .daemonReload s3)
        with ⟨r5, s5⟩
      have c5 : s5.trace.count Event.daemonReload =
          s.trace.count Event.daemonReload + 1 := by
        have e5 := executeUnitCommands_extends env changes.units.changed
          (emit .daemonReload s3)
        rw [h5] at e5
        rw [count_reload_eq_of_extends e5 rfl, c4]
      cases r5 with
      | error e =>
        have hfin : (applyPipeline env changes s).2 = s5 := by
          simp only [applyPipeline, hp, opDaemonReload, hre, h5]
        rw [hfin, c5]
      | ok w =>
        rcases h6 : removeDeletedFiles changes.files.deleted s5 with ⟨r6, s6⟩
        have c6 : s6.trace.count Event.daemonReload =
            s.trace.count Event.daemonReload + 1 := by
          have e6 := removeDeletedFiles_extends changes.files.deleted s5
          rw [h6] at e6
          rw [count_reload_eq_of_extends e6 rfl, c5]
        cases r6 with
        | error e =>
          have hfin : (applyPipeline env changes s).2 = s6 := by
            simp only [applyPipeline, hp, opDaemonReload, hre, h5, h6]
          rw [hfin, c6]
        | ok x =>
          have hfin : (applyPipeline env changes s).2 = s6 := by
            simp only [applyPipeline, hp, opDaemonReload, hre, h5, h6]
          rw [hfin, c6]
    · have hfin : (applyPipeline env changes s).2 = emit Event.daemonReload s3 := by
        simp only [applyPipeline, hp, opDaemonReload, hre]
      rw [hfin, c4]

/-! ### Concrete fixtures for witnesses -/

/-- A benign environment: decoding is the identity and every service-manager
call succeeds. -/
def benignEnv : Env :=
  { decode := fun _ d => .ok d
    enableErr := fun _ => none
    disableErr := fun _ => none
    stopErr := fun _ => none
    restartErr := fun _ => none
    daemonReloadErr := none
    syncPeriodSeconds := 60 }

/-- An environment in which the daemon reload fails. -/
def reloadFailEnv : Env :=
  { benignEnv with daemonReloadErr := some "connection refused" }

/-- An environment in which restarting `foo.service` fails. -/
def restartFailEnv : Env :=
  { benignEnv with
    restartErr := fun n => if n = "foo.service" then some "job failed" else none }

/-- The empty starting state of a pass. -/
def initState : RState := { fs := [], trace := [] }

/-- A sample managed file. -/
def sampleFile : File := ⟨"/etc/app.conf", none, ⟨some ⟨"", "a=1"⟩⟩⟩

/-- A sample changed unit with content and no drop-ins. -/
def sampleUnit : ChangedUnit := ⟨⟨"foo.service", none, none, some "X", []⟩, ⟨[], []⟩⟩

/-- A sample changed unit that is explicitly disabled and has no command. -/
def disabledUnit : ChangedUnit := ⟨⟨"baz.service", none, some false, none, []⟩, ⟨[], []⟩⟩

/-- A sample deleted unit. -/
def sampleDeletedUnit : SystemdUnit := ⟨"bar.service", none, none, none, []⟩

/-- A sample change set touching files and units. -/
def sampleChanges : OSCChanges := ⟨⟨[sampleFile], []⟩, ⟨[sampleUnit], [sampleDeletedUnit]⟩⟩

/-- The empty change set. -/
def emptyChanges : OSCChanges := ⟨⟨[], []⟩, ⟨[], []⟩⟩

/-- A node whose checksum annotation records `"cs"`. -/
def convergedNode : NodeMeta := ⟨[(annotationKeyChecksum, "cs")]⟩

/-! ### The claims -/

/-- C3: for every pass in which the checksum recorded in the node's annotation
equals the checksum of the desired configuration, the reconciler skips the
apply engine entirely and terminates successfully — the returned state is the
input state, so no filesystem write, no file/unit removal and no
service-manager call happens in that pass. -/
theorem c3_convergence_skip (env : Env) (node : NodeMeta) (changes : OSCChanges)
    (raw cs : String) (s : RState)
    (h : (annLookup node.annotations annotationKeyChecksum).getD "" = cs) :
    Reconcile env (some node) changes raw cs s = (.ok .terminate, s) := by
  have hskip : checkSkip (some node) cs = true := by
    simp [checkSkip, h]
  simp [Reconcile, hskip]

/-- Witness for C3 at a concrete node, checksum and change set. -/
theorem c3_convergence_skip_witness :
    Reconcile benignEnv (some convergedNode) sampleChanges "raw" "cs" initState =
      (.ok .terminate, initState) :=
  c3_convergence_skip benignEnv convergedNode sampleChanges "raw" "cs" initState (by rfl)

/-- C8: the convergence gate is consulted only when the node object exists —
with no node the skip condition is false and `Reconcile` runs the full apply
pipeline and the marker write for every checksum, including one equal to the
last fully applied one. -/
theorem c8_no_node_no_skip (env : Env) (changes : OSCChanges) (raw cs : String)
    (s : RState) :
    checkSkip none cs = false ∧
    Reconcile env none changes raw cs s =
      (match applyPipeline env changes s with
       | (.error e, s1) => ((.error e : Except Err ReconcileResult), s1)
       | (.ok _, s1) => (.ok (.requeueAfterSeconds 5), persistMarker raw s1)) := by
  refine ⟨rfl, ?_⟩
  rcases hpipe : applyPipeline env changes s with ⟨rp, sp⟩
  cases rp <;> simp [Reconcile, checkSkip, hpipe]

theorem wantsStop_iff (u : ChangedUnit) :
    wantsStop u = true ↔
      (u.unit.enable = some false ∨ u.unit.command = some UnitCommand.stop) := by
  unfold wantsStop
  cases he : u.unit.enable with
  | none =>
    cases hc : u.unit.command with
    | none => simp
    | some c => cases c <;> simp
  | some b =>
    cases b with
    | false => simp
    | true =>
      cases hc : u.unit.command with
      | none => simp
      | some c => cases c <;> simp

theorem commandEvent_eq (u : ChangedUnit) :
    commandEvent u =
      (if u.unit.enable = some false ∨ u.unit.command = some UnitCommand.stop
       then Event.stop u.unit.name else Event.restart u.unit.name) := by
  unfold commandEvent
  by_cases h : u.unit.enable = some false ∨ u.unit.command = some UnitCommand.stop
  · rw [if_pos h, if_pos ((wantsStop_iff u).mpr h)]
  · rw [if_neg h, if_neg (fun hw => h ((wantsStop_iff u).mp hw))]

/-- C4: in the unit-command phase every changed unit gets exactly one command —
the trace grows by exactly one command event per changed unit; that event is
`Stop` when the unit is explicitly disabled (`enable = some false`) or its
explicit command is `Stop`, and `Restart` otherwise (so `enable = none`
defaults to enabled); in particular a unit with `enable = some false` and no
explicit command receives `Stop`. -/
theorem c4_stop_vs_restart (env : Env) (units : List ChangedUnit) (s : RState) :
    (executeUnitCommands env units s).2.trace = s.trace ++ units.map commandEvent ∧
    (∀ u : ChangedUnit,
      commandEvent u =
        (if u.unit.enable = some false ∨ u.unit.command = some UnitCommand.stop
         then Event.stop u.unit.name else Event.restart u.unit.name)) ∧
    (∀ u : ChangedUnit, u.unit.enable = some false → u.unit.command = none →
      commandEvent u = Event.stop u.unit.name) := by
  refine ⟨executeUnitCommands_trace env units s, commandEvent_eq, ?_⟩
  intro u he hc
  rw [commandEvent_eq u, if_pos (Or.inl he)]

/-- Witness for C4: a disabled unit with no explicit command is stopped, not
restarted. -/
theorem c4_stop_vs_restart_witness :
    (executeUnitCommands benignEnv [disabledUnit] initState).2.trace =
        initState.trace ++ [disabledUnit].map commandEvent ∧
      commandEvent disabledUnit = Event.stop "baz.service" :=
  ⟨(c4_stop_vs_restart benignEnv [disabledUnit] initState).1,
   (c4_stop_vs_restart benignEnv [disabledUnit] initState).2.2 disabledUnit rfl rfl⟩

/-- C5: the unit-command phase succeeds exactly when every per-unit command
succeeds; the reported result is determined by the first failing unit's error;
and the trace still contains one command event for every unit — a failing unit
never prevents the commands of the remaining units from running. -/
theorem c5_unit_commands_result (env : Env) (units : List ChangedUnit) (s : RState) :
    ((executeUnitCommands env units s).1 = .ok () ↔
      ∀ u ∈ units, unitCommandOutcome env u = none) ∧
    (executeUnitCommands env units s).1 =
      (match (units.filterMap (unitCommandOutcome env)).head? with
       | none => .ok ()
       | some e => .error e) ∧
    (executeUnitCommands env units s).2.trace = s.trace ++ units.map commandEvent := by
  refine ⟨?_, executeUnitCommands_fst env units s, executeUnitCommands_trace env units s⟩
  rw [executeUnitCommands_fst env units s]
  cases hh : (units.filterMap (unitCommandOutcome env)).head? with
  | none =>
    simp only []
    constructor
    · intro _
      have hnil : units.filterMap (unitCommandOutcome env) = [] := by
        rwa [List.head?_eq_none_iff] at hh
      exact List.filterMap_eq_nil_iff.mp hnil
    · intro _
      trivial
  | some e =>
    simp only []
    constructor
    · intro hcontr
      exact absurd hcontr (by simp)
    · intro hall
      have hnil : units.filterMap (unitCommandOutcome env) = [] :=
        List.filterMap_eq_nil_iff.mpr hall
      rw [hnil] at hh
      simp at hh

/-- Witness for C5: with a failing restart for `foo.service` and a healthy
`baz.service`, the phase reports the first error while both commands still
appear in the trace. -/
theorem c5_unit_commands_result_witness :
    (executeUnitCommands restartFailEnv [sampleUnit, disabledUnit] initState).1 =
      (match ([sampleUnit, disabledUnit].filterMap
          (unitCommandOutcome restartFailEnv)).head? with
       | none => (.ok () : Except Err Unit)
       | some e => .error e) ∧
    (executeUnitCommands restartFailEnv [sampleUnit, disabledUnit] initState).2.trace =
      initState.trace ++ [sampleUnit, disabledUnit].map commandEvent :=
  ⟨(c5_unit_commands_result restartFailEnv [sampleUnit, disabledUnit] initState).2.1,
   (c5_unit_commands_result restartFailEnv [sampleUnit, disabledUnit] initState).2.2⟩

/-- C6: deletions are idempotent — removing an already-absent file in the
delete-files phase succeeds, removing an already-absent drop-in file in the
unit-apply phase succeeds, and deleting a unit whose unit file is already
absent succeeds (given its disable and stop calls succeed); a not-found result
is never surfaced as an error. -/
theorem c6_deletion_idempotent :
    (∀ (f : File) (s : RState), fsLookup s.fs f.path = none →
      removeDeletedFiles [f] s = (.ok (), emit (.remove f.path) s)) ∧
    (∀ (dd : String) (d : DropIn) (s : RState),
      fsLookup s.fs (dd ++ "/" ++ d.name) = none →
      removeDeletedDropInsLoop dd [d] s =
        (.ok (), emit (.remove (dd ++ "/" ++ d.name)) s)) ∧
    (∀ (env : Env) (u : SystemdUnit) (s : RState),
      env.disableErr u.name = none → env.stopErr u.name = none →
      fsLookup s.fs (etcSystemdSystem ++ "/" ++ u.name) = none →
      (removeDeletedUnit env u s).1 = .ok ()) := by
  refine ⟨?_, ?_, ?_⟩
  · intro f s h
    simp [removeDeletedFiles, opRemove, h]
  · intro dd d s h
    simp [removeDeletedDropInsLoop, opRemove, h]
  · intro env u s hd hs habs
    simp [removeDeletedUnit, opDisable, hd, opStop, hs, opRemove, habs]

/-- Witness for C6 at concrete absent targets. -/
theorem c6_deletion_idempotent_witness :
    removeDeletedFiles [sampleFile] initState =
      (.ok (), emit (.remove "/etc/app.conf") initState) ∧
    removeDeletedDropInsLoop "/etc/systemd/system/foo.service.d" [⟨"10-override.conf", "Z"⟩]
        initState =
      (.ok (), emit (.remove "/etc/systemd/system/foo.service.d/10-override.conf") initState) ∧
    (removeDeletedUnit benignEnv sampleDeletedUnit initState).1 = .ok () :=
  ⟨c6_deletion_idempotent.1 sampleFile initState rfl,
   c6_deletion_idempotent.2.1 "/etc/systemd/system/foo.service.d" ⟨"10-override.conf", "Z"⟩
     initState rfl,
   c6_deletion_idempotent.2.2 benignEnv sampleDeletedUnit initState rfl rfl rfl⟩

theorem fsLookup_fsSet_self (fs : FileSystem) (p : String) (e : FSEntry) :
    fsLookup (fsSet fs p e) p = some e := by
  induction fs with
  | nil => simp [fsSet, fsLookup]
  | cons kv rest ih =>
    by_cases hq : kv.1 = p
    · simp [fsSet, fsLookup, hq]
    · simp [fsSet, fsLookup, hq, ih]

/-- C7: for a changed unit whose desired content is present and byte-equal to
the installed unit file, the content is not rewritten (the trace holds only the
read and the permission reset, no write event) but the permission bits are
still reset to the default; when the content differs it is written and the
permissions are reset as well; and the same discipline applies to changed
drop-in files. -/
theorem c7_write_only_if_different :
    (∀ (n p c : String) (s : RState) (entry : FSEntry),
      fsLookup s.fs p = some entry → entry.data = c →
      (applyUnitContent n p (some c) s).1 = .ok () ∧
      (applyUnitContent n p (some c) s).2.trace =
        s.trace ++ [.readFile p, .chmod p defaultFilePermissions] ∧
      fsLookup (applyUnitContent n p (some c) s).2.fs p =
        some ⟨c, defaultFilePermissions⟩) ∧
    (∀ (n p c : String) (s : RState) (entry : FSEntry),
      fsLookup s.fs p = some entry → entry.data ≠ c →
      (applyUnitContent n p (some c) s).1 = .ok () ∧
      (applyUnitContent n p (some c) s).2.trace =
        s.trace ++ [.readFile p, .writeFile p c defaultFilePermissions,
                    .chmod p defaultFilePermissions] ∧
      fsLookup (applyUnitContent n p (some c) s).2.fs p =
        some ⟨c, defaultFilePermissions⟩) ∧
    (∀ (n up dd : String) (d : DropIn) (s : RState) (entry : FSEntry),
      fsLookup s.fs (dd ++ "/" ++ d.name) = some entry → entry.data = d.content →
      (applyChangedDropIn n up dd d s).1 = .ok () ∧
      (applyChangedDropIn n up dd d s).2.trace =
        s.trace ++ [.readFile (dd ++ "/" ++ d.name),
                    .chmod (dd ++ "/" ++ d.name) defaultFilePermissions] ∧
      fsLookup (applyChangedDropIn n up dd d s).2.fs (dd ++ "/" ++ d.name) =
        some ⟨d.content, defaultFilePermissions⟩) ∧
    (∀ (n up dd : String) (d : DropIn) (s : RState) (entry : FSEntry),
      fsLookup s.fs (dd ++ "/" ++ d.name) = some entry → entry.data ≠ d.content →
      (applyChangedDropIn n up dd d s).1 = .ok () ∧
      (applyChangedDropIn n up dd d s).2.trace =
        s.trace ++ [.readFile (dd ++ "/" ++ d.name),
                    .writeFile (dd ++ "/" ++ d.name) d.content defaultFilePermissions,
                    .chmod (dd ++ "/" ++ d.name) defaultFilePermissions] ∧
      fsLookup (applyChangedDropIn n up dd d s).2.fs (dd ++ "/" ++ d.name) =
        some ⟨d.content, defaultFilePermissions⟩) := by
  refine ⟨?_, ?_, ?_, ?_⟩
  · intro n p c s entry h hd
    have hcond : c = ((opReadFile p s).1).getD "" := by
      rw [opReadFile_fst, h]
      exact hd.symm
    refine ⟨?_, ?_, ?_⟩
    · simp only [applyUnitContent]
      rw [if_pos hcond]
      simp [opChmod, h]
    · simp only [applyUnitContent]
      rw [if_pos hcond]
      simp [opChmod, h]
    · simp only [applyUnitContent]
      rw [if_pos hcond]
      simp [opChmod, h, fsLookup_fsSet_self, hd]
  · intro n p c s entry h hd
    have hcond : ¬(c = ((opReadFile p s).1).getD "") := by
      rw [opReadFile_fst, h]
      exact fun heq => hd heq.symm
    refine ⟨?_, ?_, ?_⟩
    · simp only [applyUnitContent]
      rw [if_neg hcond]
      simp [opChmod, fsLookup_fsSet_self]
    · simp only [applyUnitContent]
      rw [if_neg hcond]
      simp [opChmod, fsLookup_fsSet_self]
    · simp only [applyUnitContent]
      rw [if_neg hcond]
      simp [opChmod, fsLookup_fsSet_self]
  · intro n up dd d s entry h hd
    have hcond : d.content = ((opReadFile (dd ++ "/" ++ d.name) s).1).getD "" := by
      rw [opReadFile_fst, h]
      exact hd.symm
    refine ⟨?_, ?_, ?_⟩
    · unfold applyChangedDropIn
      rw [if_pos hcond]
      simp [opChmod, h]
    · unfold applyChangedDropIn
      rw [if_pos hcond]
      simp [opChmod, h]
    · unfold applyChangedDropIn
      rw [if_pos hcond]
      simp [opChmod, h, fsLookup_fsSet_self, hd]
  · intro n up dd d s entry h hd
    have hcond : ¬(d.content = ((opReadFile (dd ++ "/" ++ d.name) s).1).getD "") := by
      rw [opReadFile_fst, h]
      exact fun heq => hd heq.symm
    refine ⟨?_, ?_, ?_⟩
    · unfold applyChangedDropIn
      rw [if_neg hcond]
      simp [opChmod, fsLookup_fsSet_self]
    · unfold applyChangedDropIn
      rw [if_neg hcond]
      simp [opChmod, fsLookup_fsSet_self]
    · unfold applyChangedDropIn
      rw [if_neg hcond]
      simp [opChmod, fsLookup_fsSet_self]

/-- A state whose filesystem already holds `foo.service` with content `"X"`
and manually altered permission bits. -/
def unitFsState : RState := ⟨[("/etc/systemd/system/foo.service", ⟨"X", 7⟩)], []⟩

/-- Witness for C7: with `foo.service` already holding the desired content the
pass only reads and resets permissions; with differing desired content it
writes and resets permissions. -/
theorem c7_write_only_if_different_witness :
    ((applyUnitContent "foo.service" "/etc/systemd/system/foo.service" (some "X")
        unitFsState).1 = .ok () ∧
      (applyUnitContent "foo.service" "/etc/systemd/system/foo.service" (some "X")
          unitFsState).2.trace =
        unitFsState.trace ++ [.readFile "/etc/systemd/system/foo.service",
          .chmod "/etc/systemd/system/foo.service" defaultFilePermissions] ∧
      fsLookup (applyUnitContent "foo.service" "/etc/systemd/system/foo.service" (some "X")
          unitFsState).2.fs "/etc/systemd/system/foo.service" =
        some ⟨"X", defaultFilePermissions⟩) ∧
    ((applyUnitContent "foo.service" "/etc/systemd/system/foo.service" (some "Y")
        unitFsState).1 = .ok () ∧
      (applyUnitContent "foo.service" "/etc/systemd/system/foo.service" (some "Y")
          unitFsState).2.trace =
        unitFsState.trace ++ [.readFile "/etc/systemd/system/foo.service",
          .writeFile "/etc/systemd/system/foo.service" "Y" defaultFilePermissions,
          .chmod "/etc/systemd/system/foo.service" defaultFilePermissions] ∧
      fsLookup (applyUnitContent "foo.service" "/etc/systemd/system/foo.service" (some "Y")
          unitFsState).2.fs "/etc/systemd/system/foo.service" =
        some ⟨"Y", defaultFilePermissions⟩) :=
  ⟨c7_write_only_if_different.1 "foo.service" "/etc/systemd/system/foo.service" "X"
      unitFsState ⟨"X", 7⟩ rfl rfl,
   c7_write_only_if_different.2.1 "foo.service" "/etc/systemd/system/foo.service" "Y"
      unitFsState ⟨"X", 7⟩ rfl (by decide)⟩

/-- C9: `DaemonReload` is invoked exactly once on every pass that is not
skipped by the convergence gate and whose first three phases succeed — in
particular also when the change set is empty, so an empty change set does not
imply zero service-manager calls in a non-skipped pass. -/
theorem c9_daemon_reload_once (env : Env) (node : Option NodeMeta) (changes : OSCChanges)
    (raw cs : String) (s : RState)
    (hskip : checkSkip node cs = false) (hs : s.trace = [])
    (h123 : (phases123 env changes s).1 = .ok ()) :
    ((Reconcile env node changes raw cs s).2.trace).count Event.daemonReload = 1 := by
  rcases hpipe : applyPipeline env changes s with ⟨rp, sp⟩
  have hcount : sp.trace.count Event.daemonReload = 1 := by
    have h := applyPipeline_reload_count env changes s h123
    rw [hpipe] at h
    have h2 : sp.trace.count Event.daemonReload =
        s.trace.count Event.daemonReload + 1 := h
    rw [hs] at h2
    simpa using h2
  cases rp with
  | error e =>
    have hR : (Reconcile env node changes raw cs s).2 = sp := by
      simp [Reconcile, hskip, hpipe]
    rw [hR]
    exact hcount
  | ok v =>
    cases node with
    | none =>
      have hR : (Reconcile env none changes raw cs s).2 = persistMarker raw sp := by
        simp [Reconcile, checkSkip, hpipe]
      rw [hR]
      simp [List.count_append, hcount]
    | some nd =>
      have hR : (Reconcile env (some nd) changes raw cs s).2 =
          emit (.patchNode cs) (emit .recordOSCApplied (persistMarker raw sp)) := by
        simp [Reconcile, hskip, hpipe]
      rw [hR]
      simp [List.count_append, hcount]

/-- Witness for C9: a non-skipped pass with the empty change set still counts
one daemon reload. -/
theorem c9_daemon_reload_once_witness :
    ((Reconcile benignEnv none emptyChanges "raw" "cs" initState).2.trace).count
        Event.daemonReload = 1 :=
  c9_daemon_reload_once benignEnv none emptyChanges "raw" "cs" initState rfl rfl (by rfl)

/-- C1: if any of the six apply phases fails, `Reconcile` returns that
(wrapped) error, the marker-write step never runs and the node is never
patched with the checksum annotation; conversely the marker write happens only
on passes in which the whole six-phase pipeline succeeded. -/
theorem c1_phase_failure_no_marker (env : Env) (node : Option NodeMeta)
    (changes : OSCChanges) (raw cs : String) (s : RState)
    (hskip : checkSkip node cs = false) (hs : s.trace = []) :
    (∀ e, (applyPipeline env changes s).1 = .error e →
      (Reconcile env node changes raw cs s).1 = .error e ∧
      (∀ r, Event.persistMarker r ∉ (Reconcile env node changes raw cs s).2.trace) ∧
      (∀ c, Event.patchNode c ∉ (Reconcile env node changes raw cs s).2.trace)) ∧
    ((∃ r, Event.persistMarker r ∈ (Reconcile env node changes raw cs s).2.trace) →
      (applyPipeline env changes s).1 = .ok ()) := by
  rcases hpipe : applyPipeline env changes s with ⟨rp, sp⟩
  have hnomark : ∀ ev ∈ sp.trace, isPipelineEvent ev = true := by
    have e := applyPipeline_extends env changes s
    rw [hpipe] at e
    obtain ⟨t, ht, hp⟩ := e
    intro ev hev
    have ht2 : sp.trace = s.trace ++ t := ht
    rw [ht2, hs] at hev
    simp at hev
    exact hp ev hev
  constructor
  · intro e he
    have hrp : rp = .error e := he
    subst hrp
    have hR : Reconcile env node changes raw cs s = (.error e, sp) := by
      simp [Reconcile, hskip, hpipe]
    rw [hR]
    refine ⟨rfl, ?_, ?_⟩
    · intro r hmem
      have hev := hnomark _ hmem
      simp [isPipelineEvent] at hev
    · intro c hmem
      have hev := hnomark _ hmem
      simp [isPipelineEvent] at hev
  · rintro ⟨r, hmem⟩
    cases rp with
    | ok v => rfl
    | error e =>
      exfalso
      have hR : Reconcile env node changes raw cs s = (.error e, sp) := by
        simp [Reconcile, hskip, hpipe]
      rw [hR] at hmem
      have hev := hnomark _ hmem
      simp [isPipelineEvent] at hev

/-- Witness for C1: with a failing daemon reload, the pass returns the wrapped
reload error and neither writes the marker nor patches the node. -/
theorem c1_phase_failure_no_marker_witness :
    (Reconcile reloadFailEnv none emptyChanges "raw" "cs" initState).1 =
        .error "failed reloading systemd daemon: connection refused" ∧
      (∀ r, Event.persistMarker r ∉
        (Reconcile reloadFailEnv none emptyChanges "raw" "cs" initState).2.trace) ∧
      (∀ c, Event.patchNode c ∉
        (Reconcile reloadFailEnv none emptyChanges "raw" "cs" initState).2.trace) :=
  (c1_phase_failure_no_marker reloadFailEnv none emptyChanges "raw" "cs" initState
    rfl rfl).1 "failed reloading systemd daemon: connection refused" (by rfl)

/-- C2: on every successful apply, the trace decomposes into the six phases in
their fixed order — changed-file events, then changed-unit events, then for
each deleted unit the exact block disable → stop → unit-file removal →
drop-in-directory removal, then a single daemon reload, then exactly one
start/stop command per changed unit, then file-removal events. -/
theorem c2_phase_order (env : Env) (changes : OSCChanges) (s : RState)
    (h : (applyPipeline env changes s).1 = .ok ()) :
    ∃ t1 t2 t6,
      (applyPipeline env changes s).2.trace =
        s.trace ++ t1 ++ t2 ++ (changes.units.deleted.map unitDeleteBlock).flatten ++
          [Event.daemonReload] ++ changes.units.changed.map commandEvent ++ t6 ∧
      (∀ e ∈ t1, isPhase1Event e = true) ∧ (∀ e ∈ t2, isPhase2Event e = true) ∧
      (∀ e ∈ t6, isPhase6Event e = true) :=
  applyPipeline_ok_shape env changes s h

/-- Witness for C2 on a concrete pass with a changed file, a changed unit and
a deleted unit. -/
theorem c2_phase_order_witness :
    ∃ t1 t2 t6,
      (applyPipeline benignEnv sampleChanges initState).2.trace =
        initState.trace ++ t1 ++ t2 ++
          (sampleChanges.units.deleted.map unitDeleteBlock).flatten ++
          [Event.daemonReload] ++ sampleChanges.units.changed.map commandEvent ++ t6 ∧
      (∀ e ∈ t1, isPhase1Event e = true) ∧ (∀ e ∈ t2, isPhase2Event e = true) ∧
      (∀ e ∈ t6, isPhase6Event e = true) :=
  c2_phase_order benignEnv sampleChanges initState (by rfl)

theorem phase2StepEvent_perm (e : Event) (he : phase2StepEvent e = true) :
    (∀ p d perm, e = Event.writeFile p d perm → perm = defaultFilePermissions) ∧
    (∀ p perm, e = Event.chmod p perm → perm = defaultFilePermissions) := by
  constructor
  · intro p d perm hep
    subst hep
    simp [phase2StepEvent, isPhase2Event] at he
    exact he
  · intro p perm hep
    subst hep
    simp [phase2StepEvent, isPhase2Event] at he
    exact he

theorem resolvePerm_eq (f : File) :
    resolvePerm f = f.permissions.getD defaultFilePermissions := by
  cases hp : f.permissions <;> simp [resolvePerm, hp]

/-- C10: every file write and permission reset the unit-apply phase performs
uses the fixed `defaultFilePermissions = 0600`, for any list of changed units —
units carry no permission field, so nothing can override it; plain managed
files instead are written with their own permissions, defaulting to 0600 when
unset. -/
theorem c10_fixed_permissions :
    (∀ (env : Env) (units : List ChangedUnit) (s : RState),
      ∃ t, (applyChangedUnits env units s).2.trace = s.trace ++ t ∧
        ∀ e ∈ t,
          (∀ p d perm, e = Event.writeFile p d perm → perm = defaultFilePermissions) ∧
          (∀ p perm, e = Event.chmod p perm → perm = defaultFilePermissions)) ∧
    defaultFilePermissions = 0o600 ∧
    (∀ (env : Env) (tmpDir : String) (f : File) (s : RState),
      ∃ t, (applyChangedFile env tmpDir f s).2.trace = s.trace ++ t ∧
        ∀ e ∈ t, ∀ p d perm, e = Event.writeFile p d perm →
          perm = f.permissions.getD defaultFilePermissions) := by
  refine ⟨?_, rfl, ?_⟩
  · intro env units s
    obtain ⟨t, ht, hp⟩ := applyChangedUnits_extends env units s
    exact ⟨t, ht, fun e he => phase2StepEvent_perm e (hp e he)⟩
  · intro env tmpDir f s
    obtain ⟨t, ht, hp⟩ := applyChangedFile_extends env tmpDir f s
    refine ⟨t, ht, ?_⟩
    intro e he p d perm hep
    subst hep
    have h2 := hp _ he
    simp [phase1StepEvent, isPhase1Event] at h2
    rw [← resolvePerm_eq f]
    exact h2

/-- Witness for C10 on a concrete changed unit. -/
theorem c10_fixed_permissions_witness :
    ∃ t, (applyChangedUnits benignEnv [sampleUnit] initState).2.trace =
        initState.trace ++ t ∧
      ∀ e ∈ t,
        (∀ p d perm, e = Event.writeFile p d perm → perm = defaultFilePermissions) ∧
        (∀ p perm, e = Event.chmod p perm → perm = defaultFilePermissions) :=
  c10_fixed_permissions.1 benignEnv [sampleUnit] initState

end GardenerOSC
